import Mathlib

/-!
Verification development for the Amtrak feed ingestion system
(`amtrak.py`: key-material resolution, two-stage payload decryption, feed
parsing; `worker.py`: database reconciliation of train snapshots).

The Python code is shallowly embedded: JSON documents become the inductive
type `Val`, bytes become `List Nat`, database rows become Lean structures,
and every fallible Python operation returns `Except Unit`.
-/

set_option maxRecDepth 100000

namespace Amtrak

/-- Timezone-aware instants. The actual `datetime` arithmetic is irrelevant to
every property proved here; a date value is determined by the raw feed string
and the timezone key it was localized to (`DateV.parsed`), or by the moment of
fetching localized to a timezone key (`DateV.now`). -/
inductive DateV where
  | parsed (raw : String) (tzKey : String)
  | now (tzKey : String)
  deriving DecidableEq, Repr

/-- JSON-ish values as manipulated by the worker: the constructors of Python's
JSON-decoded data plus `date` for `datetime` objects held in parsed snapshots
before serialization. -/
inductive Val where
  | null
  | bool (b : Bool)
  | num (n : Int)
  | str (s : String)
  | date (d : DateV)
  | arr (xs : List Val)
  | obj (fields : List (String × Val))
  deriving Repr

namespace Val

mutual

def beqVal : Val → Val → Bool
  | .null, .null => true
  | .bool a, .bool b => a = b
  | .num a, .num b => a = b
  | .str a, .str b => a = b
  | .date a, .date b => a = b
  | .arr a, .arr b => beqList a b
  | .obj a, .obj b => beqFields a b
  | _, _ => false

def beqList : List Val → List Val → Bool
  | [], [] => true
  | a :: as, b :: bs => beqVal a b && beqList as bs
  | _, _ => false

def beqFields : List (String × Val) → List (String × Val) → Bool
  | [], [] => true
  | (k, a) :: as, (k', b) :: bs => k = k' && beqVal a b && beqFields as bs
  | _, _ => false

end

mutual

theorem beqVal_eq : ∀ a b : Val, beqVal a b = true → a = b
  | .null, .null, _ => rfl
  | .bool _, .bool _, h => by
      simp only [beqVal, decide_eq_true_eq] at h; rw [h]
  | .num _, .num _, h => by
      simp only [beqVal, decide_eq_true_eq] at h; rw [h]
  | .str _, .str _, h => by
      simp only [beqVal, decide_eq_true_eq] at h; rw [h]
  | .date _, .date _, h => by
      simp only [beqVal, decide_eq_true_eq] at h; rw [h]
  | .arr a, .arr b, h => by
      simp only [beqVal] at h; rw [beqList_eq a b h]
  | .obj a, .obj b, h => by
      simp only [beqVal] at h; rw [beqFields_eq a b h]

theorem beqList_eq : ∀ a b : List Val, beqList a b = true → a = b
  | [], [], _ => rfl
  | a :: as, b :: bs, h => by
      simp only [beqList, Bool.and_eq_true] at h
      rw [beqVal_eq a b h.1, beqList_eq as bs h.2]

theorem beqFields_eq : ∀ a b : List (String × Val), beqFields a b = true → a = b
  | [], [], _ => rfl
  | (k, a) :: as, (k', b) :: bs, h => by
      simp only [beqFields, Bool.and_eq_true, decide_eq_true_eq] at h
      rw [h.1.1, beqVal_eq a b h.1.2, beqFields_eq as bs h.2]

end

mutual

theorem beqVal_rfl : ∀ a : Val, beqVal a a = true
  | .null => rfl
  | .bool _ => by simp [beqVal]
  | .num _ => by simp [beqVal]
  | .str _ => by simp [beqVal]
  | .date _ => by simp [beqVal]
  | .arr a => by simp only [beqVal]; exact beqList_rfl a
  | .obj a => by simp only [beqVal]; exact beqFields_rfl a

theorem beqList_rfl : ∀ a : List Val, beqList a a = true
  | [] => rfl
  | a :: as => by
      simp only [beqList, Bool.and_eq_true]
      exact ⟨beqVal_rfl a, beqList_rfl as⟩

theorem beqFields_rfl : ∀ a : List (String × Val), beqFields a a = true
  | [] => rfl
  | (k, a) :: as => by
      simp only [beqFields, Bool.and_eq_true, decide_eq_true_eq]
      refine ⟨⟨?_, beqVal_rfl a⟩, beqFields_rfl as⟩
      simp

end

instance : DecidableEq Val := fun a b =>
  if h : beqVal a b = true then .isTrue (beqVal_eq a b h)
  else .isFalse (fun he => h (he ▸ beqVal_rfl a))

end Val

instance {ε α : Type} [DecidableEq ε] [DecidableEq α] : DecidableEq (Except ε α)
  | .ok a, .ok b =>
      if h : a = b then .isTrue (by rw [h])
      else .isFalse (by intro hc; injection hc; contradiction)
  | .ok _, .error _ => .isFalse (by intro h; cases h)
  | .error _, .ok _ => .isFalse (by intro h; cases h)
  | .error a, .error b =>
      if h : a = b then .isTrue (by rw [h])
      else .isFalse (by intro hc; injection hc; contradiction)

@[simp] theorem okBind {ε α β : Type} (a : α) (f : α → Except ε β) :
    (Except.ok a >>= f : Except ε β) = f a := rfl

@[simp] theorem errBind {ε α β : Type} (e : ε) (f : α → Except ε β) :
    (Except.error e >>= f : Except ε β) = Except.error e := rfl

/-! ## Small Python-semantics helpers -/

/-- Python dict lookup `d.get(k)` on a JSON object's field list
(first matching key; real dicts have unique keys). -/
def jget (fs : List (String × Val)) (k : String) : Option Val :=
  match fs with
  | [] => none
  | (k', v) :: rest => if k' = k then some v else jget rest k

/-- Python dict lookup with default: `d.get(k, dflt)`. -/
def jgetD (fs : List (String × Val)) (k : String) (dflt : Val) : Val :=
  (jget fs k).getD dflt

/-- Python `k in d` on a JSON object's field list. -/
def hasKey (fs : List (String × Val)) (k : String) : Bool :=
  fs.any (fun f => f.1 = k)

/-- Python dict item assignment `d[k] = v`: replace the value in place if the
key exists (keeping its position, as Python dicts do), else append. -/
def setKey (fs : List (String × Val)) (k : String) (v : Val) : List (String × Val) :=
  match fs with
  | [] => [(k, v)]
  | (k', v') :: rest => if k' = k then (k, v) :: rest else (k', v') :: setKey rest k v

/-- Python truthiness of a JSON-ish value. -/
def truthy : Val → Bool
  | .null => false
  | .bool b => b
  | .num n => n ≠ 0
  | .str s => s ≠ ""
  | .date _ => true
  | .arr xs => xs ≠ []
  | .obj fs => fs ≠ []

/-- The rendering `datetime.isoformat()` used by `serialize_for_json`; an
injective textual stand-in (no proved property inspects its exact shape). -/
def isoOf : DateV → String
  | .parsed raw tz => "iso(" ++ raw ++ "," ++ tz ++ ")"
  | .now tz => "now(" ++ tz ++ ")"

/-- Python `str(v)`. Exact for the scalar values that actually occur in feed
fields; containers get an abbreviated rendering (no modelled claim ever
applies `str` to a container). -/
def pyStr : Val → String
  | .null => "None"
  | .bool true => "True"
  | .bool false => "False"
  | .num n => toString n
  | .str s => s
  | .date d => isoOf d
  | .arr _ => "<list>"
  | .obj _ => "<dict>"

/-- Python sequence indexing `xs[i]` with an `int` index: negative indices
count from the end; out of range raises `IndexError`. -/
def pyIndex {α : Type} (xs : List α) (i : Int) : Except Unit α :=
  let j : Int := if i < 0 then i + xs.length else i
  if h : 0 ≤ j ∧ j.toNat < xs.length then .ok (xs.get ⟨j.toNat, h.2⟩)
  else .error ()

def hexDigit (c : Char) : Except Unit Nat :=
  if '0' ≤ c ∧ c ≤ '9' then .ok (c.toNat - '0'.toNat)
  else if 'a' ≤ c ∧ c ≤ 'f' then .ok (c.toNat - 'a'.toNat + 10)
  else if 'A' ≤ c ∧ c ≤ 'F' then .ok (c.toNat - 'A'.toNat + 10)
  else .error ()

def hexPairs : List Char → Except Unit (List Nat)
  | [] => .ok []
  | [_] => .error ()
  | c1 :: c2 :: rest => do
      let h ← hexDigit c1
      let l ← hexDigit c2
      let tl ← hexPairs rest
      .ok ((16 * h + l) :: tl)

/-- `bytes.fromhex`: decodes a hex string to bytes, failing on odd length or
non-hex characters (the Python version also allows interior spaces, which the
upstream salt/IV strings never contain). -/
def bytesFromhex (s : String) : Except Unit (List Nat) :=
  hexPairs s.data

/-! ## `amtrak.parse_crypto` (the KeyMaterialResolver)

```python
def parse_crypto(routes, crypto_data):
    _index = sum([route.get("ZoomLevel", 0) for route in routes])
    public_key = crypto_data["arr"][_index]
    salt = bytes.fromhex(crypto_data["s"][len(crypto_data["s"][0])])
    iv = bytes.fromhex(crypto_data["v"][len(crypto_data["v"][0])])
    return (public_key, salt, iv)
```
-/

/-- The key-material table `RoutesList.v.json`: parallel sequences of
candidate public keys (`arr`), salts (`s`) and IVs (`v`), all strings. -/
structure CryptoData where
  arr : List String
  s : List String
  v : List String

/-- `route.get("ZoomLevel", 0)` summed over the route list; a route is a JSON
object, and a non-integer zoom level would make Python's `sum` raise. -/
def sumZoom (routes : List (List (String × Val))) : Except Unit Int :=
  match routes with
  | [] => .ok 0
  | r :: rest => do
      let z ← match jgetD r "ZoomLevel" (.num 0) with
        | .num n => Except.ok n
        | _ => Except.error ()
      let s ← sumZoom rest
      .ok (z + s)

def parse_crypto (routes : List (List (String × Val))) (c : CryptoData) :
    Except Unit (String × List Nat × List Nat) := do
  let _index ← sumZoom routes
  let public_key ← pyIndex c.arr _index
  let s0 ← pyIndex c.s 0
  let saltHex ← pyIndex c.s (s0.length : Int)
  let salt ← bytesFromhex saltHex
  let v0 ← pyIndex c.v 0
  let ivHex ← pyIndex c.v (v0.length : Int)
  let iv ← bytesFromhex ivHex
  .ok (public_key, salt, iv)

/-- Modelled from the spec's words (§4.1) for the refinement check of C3:
`index := sum(zoomLevel)`, `publicKey := table.publicKeys[index]`,
`saltIndex := length(table.salts[0])`, `salt := hexDecode(table.salts[saltIndex])`,
and likewise for the IV, each lookup failing with `IndexOutOfRange` when out
of range. -/
def resolveSpec (routes : List (List (String × Val))) (c : CryptoData) :
    Except Unit (String × List Nat × List Nat) := do
  let index ← sumZoom routes
  if hnn : 0 ≤ index then
    match h : c.arr.get? index.toNat with
    | some publicKey => do
        match h0 : c.s.get? 0 with
        | some fstSalt =>
          match hs : c.s.get? fstSalt.length with
          | some saltHex => do
            let salt ← bytesFromhex saltHex
            match h0v : c.v.get? 0 with
            | some fstIv =>
              match hv : c.v.get? fstIv.length with
              | some ivHex => do
                let iv ← bytesFromhex ivHex
                .ok (publicKey, salt, iv)
              | none => .error ()
            | none => .error ()
          | none => .error ()
        | none => .error ()
    | none => .error ()
  else .error ()

theorem pyIndex_nonneg {α : Type} (xs : List α) (i : Int) (hi : 0 ≤ i) :
    pyIndex xs i = match xs.get? i.toNat with
      | some x => .ok x
      | none => .error () := by
  unfold pyIndex
  have : ¬ i < 0 := not_lt.mpr hi
  simp only [this, if_false]
  by_cases h : i.toNat < xs.length
  · rw [dif_pos ⟨hi, h⟩, List.get?_eq_get h]
  · rw [dif_neg (fun hc => h hc.2)]
    rw [List.get?_eq_none.mpr (not_lt.mp h)]

theorem parse_crypto_eq_spec_of_nonneg (routes : List (List (String × Val)))
    (c : CryptoData) (n : Int) (hsum : sumZoom routes = .ok n) (hn : 0 ≤ n) :
    parse_crypto routes c = resolveSpec routes c := by
  unfold parse_crypto resolveSpec
  rw [hsum]
  simp only [okBind, dif_pos hn]
  rw [pyIndex_nonneg c.arr n hn]
  cases c.arr.get? n.toNat with
  | none => rfl
  | some pk =>
    simp only [okBind]
    rw [pyIndex_nonneg c.s 0 (by norm_num)]
    simp only [Int.toNat_zero]
    cases h0 : c.s.get? 0 with
    | none => rfl
    | some s0 =>
      simp only [okBind]
      rw [pyIndex_nonneg c.s (s0.length : Int) (by omega)]
      simp only [Int.toNat_natCast]
      cases hs : c.s.get? s0.length with
      | none => rfl
      | some saltHex =>
        simp only [okBind]
        cases bytesFromhex saltHex with
        | error e => rfl
        | ok salt =>
          simp only [okBind]
          rw [pyIndex_nonneg c.v 0 (by norm_num)]
          simp only [Int.toNat_zero]
          cases h0v : c.v.get? 0 with
          | none => rfl
          | some v0 =>
            simp only [okBind]
            rw [pyIndex_nonneg c.v (v0.length : Int) (by omega)]
            simp only [Int.toNat_natCast]
            cases hv : c.v.get? v0.length with
            | none => rfl
            | some ivHex => simp only [okBind]

/-- Claim demo inputs (spec §8 scenario): `publicKeys=["A","B","C"]`,
routes `[{zoomLevel:1},{zoomLevel:1}]`. -/
def demoRoutesC3 : List (List (String × Val)) :=
  [[("ZoomLevel", .num 1)], [("ZoomLevel", .num 1)]]

def demoCryptoC3 : CryptoData := ⟨["A", "B", "C"], ["", "ab"], ["", "cd"]⟩

/-- C3: `parse_crypto` computes the index as the sum of the routes'
`ZoomLevel` values (missing treated as 0), takes the public key at that index
of `arr`, and the salt/IV by hex-decoding the entry of `s`/`v` whose index is
the length of the first entry; when the index is non-negative this coincides
with the spec's resolution algorithm, and on the spec's scenario
(`publicKeys=["A","B","C"]`, zoom levels 1 and 1) the resolved public key is
`"C"`. -/
theorem parse_crypto_resolves (routes : List (List (String × Val)))
    (c : CryptoData) (n : Int) (hsum : sumZoom routes = .ok n) (hn : 0 ≤ n) :
    parse_crypto routes c = resolveSpec routes c ∧
      (parse_crypto demoRoutesC3 demoCryptoC3).map (fun r => r.1) = .ok "C" :=
  ⟨parse_crypto_eq_spec_of_nonneg routes c n hsum hn, by decide⟩

/-- Witness for C3 at the spec's concrete scenario. -/
theorem parse_crypto_resolves_witness :
    parse_crypto demoRoutesC3 demoCryptoC3 = resolveSpec demoRoutesC3 demoCryptoC3 ∧
      (parse_crypto demoRoutesC3 demoCryptoC3).map (fun r => r.1) = .ok "C" :=
  ⟨(parse_crypto_resolves demoRoutesC3 demoCryptoC3 2 (by decide) (by decide)).1,
   (parse_crypto_resolves demoRoutesC3 demoCryptoC3 2 (by decide) (by decide)).2⟩


/-! ## `amtrak.decrypt` and `amtrak.decrypt_data` (the FeedDecryptor)

```python
def decrypt(data, salt, iv, key_derivation_password):
    _data = base64.b64decode(data)
    kdf = PBKDF2HMAC(algorithm=hashes.SHA1(), length=16, salt=salt, iterations=1000)
    key = kdf.derive(key_derivation_password.encode())
    cipher = Cipher(algorithms.AES(key), modes.CBC(iv))
    decryptor = cipher.decryptor()
    return decryptor.update(_data) + decryptor.finalize()

def decrypt_data(_data, public_key, salt, iv):
    MASTER_SEGMENT = 88
    ciphertext = _data[:-MASTER_SEGMENT]
    private_key_cipher = _data[-MASTER_SEGMENT:]
    private_key = decrypt(private_key_cipher, salt, iv, public_key).decode().split("|")[0]
    padded_data = decrypt(ciphertext, salt, iv, private_key)
    unpadder = PKCS7(128).unpadder()
    data = unpadder.update(padded_data) + unpadder.finalize()
    return data
```

The cryptographic primitives (base64, PBKDF2-HMAC-SHA1, the AES block
function, UTF-8 decoding) are taken as oracle parameters; the protocol
structure around them — splitting, key derivation inputs, the two stages,
the `'|'` split, the CBC length/IV validation and PKCS#7 unpadding — is
modelled concretely. -/

/-- The primitive operations `decrypt`/`decrypt_data` delegate to. `b64` is
`base64.b64decode` (fallible: padding errors); `kdf salt password` is the
16-byte PBKDF2-HMAC-SHA1 (1000 iterations) key derivation; `aesCbc key iv ct`
is the raw AES-CBC decryption of full blocks; `utf8 bytes` is
`bytes.decode()` (fallible: invalid UTF-8). -/
structure CryptoPrims where
  b64 : List Nat → Except Unit (List Nat)
  kdf : List Nat → List Nat → List Nat
  aesCbc : List Nat → List Nat → List Nat → List Nat
  utf8 : List Nat → Except Unit String

/-- UTF-8 encoding of one code point. -/
def utf8EncodeCp (n : Nat) : List Nat :=
  if n < 0x80 then [n]
  else if n < 0x800 then [0xC0 + n / 64, 0x80 + n % 64]
  else if n < 0x10000 then [0xE0 + n / 4096, 0x80 + (n / 64) % 64, 0x80 + n % 64]
  else [0xF0 + n / 262144, 0x80 + (n / 4096) % 64, 0x80 + (n / 64) % 64, 0x80 + n % 64]

/-- `str.encode()`: UTF-8 bytes of a string. -/
def utf8Encode (s : String) : List Nat :=
  (s.data.map (fun c => utf8EncodeCp c.toNat)).flatten

/-- `amtrak.decrypt`: base64-decode, derive a 16-byte key from the password
via PBKDF2, then AES-CBC-decrypt. `cryptography` validates the IV length when
the `Cipher` is built, the derived key length when `AES` is built, and the
ciphertext length (multiple of the 16-byte block) at `finalize()`. -/
def decrypt (P : CryptoPrims) (data salt iv : List Nat)
    (key_derivation_password : String) : Except Unit (List Nat) := do
  let _data ← P.b64 data
  let key := P.kdf salt (utf8Encode key_derivation_password)
  if key.length = 16 ∧ iv.length = 16 ∧ _data.length % 16 = 0 then
    .ok (P.aesCbc key iv _data)
  else .error ()

/-- PKCS#7 unpadding with 128-bit blocks, as `PKCS7(128).unpadder()`:
the data must be a non-zero multiple of 16 bytes, the last byte `k` must be
in `1..16`, and the last `k` bytes must all equal `k`. -/
def pkcs7Unpad (bs : List Nat) : Except Unit (List Nat) :=
  let k := bs.getLastD 0
  if bs.length ≠ 0 ∧ bs.length % 16 = 0 ∧ 1 ≤ k ∧ k ≤ 16 ∧
      ((bs.drop (bs.length - k)).all (fun b => b = k)) then
    .ok (bs.take (bs.length - k))
  else .error ()

/-- Python `s.split("|")`: the list of fields between occurrences of the
separator (always non-empty; `[""]` for the empty string). -/
def pySplitPipe (cs : List Char) : List (List Char) :=
  match cs with
  | [] => [[]]
  | c :: rest =>
    let r := pySplitPipe rest
    if c = '|' then [] :: r
    else
      match r with
      | [] => [[c]]
      | g :: gs => (c :: g) :: gs

/-- `s.split("|")[0]`: the first `'|'`-separated field. -/
def firstPipeField (s : String) : String :=
  String.mk ((pySplitPipe s.data).headD [])

/-- `amtrak.decrypt_data`: the two-stage protocol. -/
def decrypt_data (P : CryptoPrims) (_data : List Nat) (public_key : String)
    (salt iv : List Nat) : Except Unit (List Nat) := do
  let ciphertext := _data.take (_data.length - 88)
  let private_key_cipher := _data.drop (_data.length - 88)
  let keyPlain ← decrypt P private_key_cipher salt iv public_key
  let keyText ← P.utf8 keyPlain
  let private_key := firstPipeField keyText
  let padded_data ← decrypt P ciphertext salt iv private_key
  pkcs7Unpad padded_data

/-- Modelled from the spec's words (§4.2) for the refinement check of C4:
split the payload into `cipherBody = payload[:-88]` and `keyBlob =
payload[-88:]`; first-stage-decrypt `keyBlob`, interpret as UTF-8 and take
the first `'|'`-separated field as the private key (trailing fields
ignored); decrypt `cipherBody` with a key derived from the private key,
same salt and IV; remove PKCS#7 padding (16-byte blocks). -/
def decryptDataSpec (P : CryptoPrims) (payload : List Nat) (publicKey : String)
    (salt iv : List Nat) : Except Unit (List Nat) := do
  let cipherBody := payload.take (payload.length - 88)
  let keyBlob := payload.drop (payload.length - 88)
  let keyBlobPlain ← decrypt P keyBlob salt iv publicKey
  let keyFields ← (P.utf8 keyBlobPlain).map (fun t => pySplitPipe t.data)
  let privateKey := String.mk (keyFields.headD [])
  let bodyPlain ← decrypt P cipherBody salt iv privateKey
  pkcs7Unpad bodyPlain

/-- Concrete inputs showing C4 end to end: identity-ish oracles, a payload of
88 key-blob bytes plus two 16-byte cipher blocks whose decryption ends in a
full block of PKCS#7 padding. -/
def demoPrimsC4 : CryptoPrims :=
  { b64 := fun bs => .ok (if bs.length = 88 then List.replicate 64 9 else bs)
    kdf := fun _ pw => (pw ++ List.replicate 16 0).take 16
    aesCbc := fun _ _ ct => ct
    utf8 := fun bs => .ok (if bs.length = 64 then "SECRET|reserved" else "ignored") }

def demoPayloadC4 : List Nat :=
  List.replicate 16 7 ++ List.replicate 16 16 ++ List.replicate 88 1

/-- C4: `decrypt_data` splits every payload into `cipherBody = payload[:-88]`
and `keyBlob = payload[-88:]`, takes as private key the first `'|'`-separated
field of the UTF-8 decoding of the first-stage decryption of `keyBlob`
(trailing fields ignored), decrypts `cipherBody` with a key derived from that
private key using the same salt and IV, and strips 16-byte-block PKCS#7
padding from the result: for all primitive oracles and inputs it coincides
with the spec's protocol, and on a concrete payload it recovers the
unpadded first block. -/
theorem decrypt_data_two_stage (P : CryptoPrims) (payload : List Nat)
    (publicKey : String) (salt iv : List Nat) :
    decrypt_data P payload publicKey salt iv =
      decryptDataSpec P payload publicKey salt iv ∧
    decrypt_data demoPrimsC4 demoPayloadC4 "PUB" (List.replicate 8 2)
      (List.replicate 16 3) = .ok (List.replicate 16 7) := by
  constructor
  · simp only [decrypt_data, decryptDataSpec]
    cases decrypt P (List.drop (payload.length - 88) payload) salt iv publicKey with
    | error e => rfl
    | ok keyPlain =>
      simp only [okBind]
      cases P.utf8 keyPlain with
      | error e => rfl
      | ok t => rfl
  · decide

/-! ## `amtrak.parse_trains` (the FeedParser, entity side)

The feed (`trains["features"]`) is a list of features; each feature's
`properties` carry up to 100 `Station{i}` slots, each holding an embedded
JSON document (modelled post-`json.loads` as a field list), plus the
top-level fields `parse_trains` reads. Evaluation follows the Python source
line by line; every place Python would raise (missing key, unknown timezone,
unparseable date, non-string where `strptime` expects one) is an `error`.

Date-format matching: `parse_date` first tries
`strptime(date, "%m/%d/%Y %H:%M:%S")` and, on `ValueError`, the same with a
trailing `%p`. Whether a raw string matches those formats is taken as two
oracle predicates `fmt1Ok`/`fmt2Ok`; everything else is concrete. -/

/-- The fixed `TIMEZONES` table: zone code/name to `ZoneInfo(...).key`. -/
def TIMEZONES : List (String × String) :=
  [("E", "America/New_York"), ("America/New_York", "America/New_York"),
   ("C", "America/Chicago"), ("America/Chicago", "America/Chicago"),
   ("M", "America/Denver"), ("America/Denver", "America/Denver"),
   ("P", "America/Los_Angeles"), ("America/Los_Angeles", "America/Los_Angeles")]

/-- `TIMEZONES[code]`: `KeyError` when the code is unknown. -/
def lookupTZ (code : String) : Option String :=
  (TIMEZONES.find? (fun p => p.1 = code)).map (fun p => p.2)

/-- `amtrak.parse_date(date, timezone_identifier)` where `date` and
`timezone_identifier` are values pulled out of a stop document with `.get`
(`none` models an absent key, which Python's `.get` turns into `None`).
`fmt1Ok`/`fmt2Ok` are the `strptime` format oracles. Faithfully ordered:
`strptime` runs before the timezone lookup, a second-format failure
propagates, a non-string date raises `TypeError`, and a missing/unknown
timezone identifier raises `KeyError`. -/
def parse_date (fmt1Ok fmt2Ok : String → Bool) (date tzid : Option Val) :
    Except Unit (Option DateV) :=
  match date with
  | none => .ok none
  | some .null => .ok none
  | some (.str d) =>
      if fmt1Ok d ∨ fmt2Ok d then
        match tzid with
        | some (.str z) =>
            match lookupTZ z with
            | some zkey => .ok (some (.parsed d zkey))
            | none => .error ()
        | _ => .error ()
      else .error ()
  | some _ => .error ()

/-- One `Station{i}` document becoming a waypoint entry
(`_stations[data["code"]] = {...}` in `parse_trains`): returns the key and
the entry value. The stop's code is required and, in this feed, a string. -/
def parseStop (fmt1Ok fmt2Ok : String → Bool) (doc : List (String × Val)) :
    Except Unit (String × Val) := do
  let code ← match jget doc "code" with
    | some (.str c) => Except.ok c
    | _ => Except.error ()
  let tzKey ← match jget doc "tz" with
    | some (.str z) =>
        match lookupTZ z with
        | some zkey => Except.ok zkey
        | none => Except.error ()
    | _ => Except.error ()
  let schArr ← parse_date fmt1Ok fmt2Ok (jget doc "scharr") (jget doc "tz")
  let schDep ← parse_date fmt1Ok fmt2Ok (jget doc "schdep") (jget doc "tz")
  let estArr ← parse_date fmt1Ok fmt2Ok (jget doc "estarr") (jget doc "tz")
  let estDep ← parse_date fmt1Ok fmt2Ok (jget doc "estdep") (jget doc "tz")
  let postArr ← parse_date fmt1Ok fmt2Ok (jget doc "postarr") (jget doc "tz")
  let postDep ← parse_date fmt1Ok fmt2Ok (jget doc "postdep") (jget doc "tz")
  let dateVal : Option DateV → Val := fun o => match o with
    | none => .null
    | some d => .date d
  .ok (code, .obj
    [("code", .str code),
     ("tz", .str tzKey),
     ("arrived", .bool (hasKey doc "postarr")),
     ("departed", .bool (hasKey doc "postdep")),
     ("scheduled", .obj
       [("arrival", dateVal schArr),
        ("departure", dateVal schDep),
        ("comment", jgetD doc "schcmnt" .null)]),
     ("estimated", .obj
       [("arrival", dateVal estArr),
        ("departure", dateVal estDep),
        ("arrival_comment", jgetD doc "estarrcmnt" .null),
        ("departure_comment", jgetD doc "estdepcmnt" .null)]),
     ("actual", .obj
       [("arrival", dateVal postArr),
        ("departure", dateVal postDep),
        ("comment", jgetD doc "postcmnt" .null)])])

/-- One feature of the entity feed: the `properties` fields `parse_trains`
touches. `stationSlots i` is `properties.get(f"Station{i}")`, already
`json.loads`-ed; `eventCode` is the (nullable) `EventCode`. -/
structure Feature where
  stationSlots : Nat → Option (List (String × Val))
  eventCode : Option String
  originTZ : String
  trainNum : String
  routeName : Val
  idVal : Val
  lastValTS : Option String

/-- The body of the `for i in range(100)` loop building the ordered
`_stations` map for one feature. -/
def stationsLoop (fmt1Ok fmt2Ok : String → Bool) (ft : Feature) :
    List Nat → List (String × Val) → Except Unit (List (String × Val))
  | [], acc => .ok acc
  | i :: rest, acc =>
      match ft.stationSlots i with
      | none => stationsLoop fmt1Ok fmt2Ok ft rest acc
      | some doc => do
          let (code, entry) ← parseStop fmt1Ok fmt2Ok doc
          stationsLoop fmt1Ok fmt2Ok ft rest (setKey acc code entry)

/-- The inner `for i in range(100)` loop of `parse_trains`. -/
def parseFeatureStations (fmt1Ok fmt2Ok : String → Bool) (ft : Feature) :
    Except Unit (List (String × Val)) :=
  stationsLoop fmt1Ok fmt2Ok ft (List.range 100) []

/-- The current-timezone selection of `parse_trains`:
`_stations[EventCode]["tz"]` when `EventCode` is non-null (a `KeyError` when
the code is not among the parsed stations), else `OriginTZ`. -/
def featureCurTz (ft : Feature) (sts : List (String × Val)) :
    Except Unit String :=
  match ft.eventCode with
  | some c =>
      match jget sts c with
      | some (.obj entry) =>
          (match jget entry "tz" with
           | some (.str z) => Except.ok z
           | _ => Except.error ())
      | _ => Except.error ()
  | none => Except.ok ft.originTZ

/-- The `TIMEZONES[cur_tz]` lookup performed while building `last_fetched`. -/
def checkTZ (z : String) : Except Unit Unit :=
  match lookupTZ z with
  | some _ => .ok ()
  | none => .error ()

/-- The six fields of the snapshot dict appended to `_trains[TrainNum]`. -/
def snapFields (routeName : Val) (trainNum : String) (idVal : Val)
    (lastUpdate : Option DateV) (sts : List (String × Val)) (curTz : String) :
    List (String × Val) :=
  [("route_name", routeName),
   ("train_number", .str trainNum),
   ("id", idVal),
   ("last_update", match lastUpdate with | none => .null | some d => .date d),
   ("stations", .obj sts),
   ("last_fetched", .date (.now curTz))]

/-- One feature becoming an entity snapshot dict. -/
def parseFeature (fmt1Ok fmt2Ok : String → Bool) (ft : Feature) :
    Except Unit Val := do
  let sts ← parseFeatureStations fmt1Ok fmt2Ok ft
  let curTz ← featureCurTz ft sts
  let lastUpdate ← parse_date fmt1Ok fmt2Ok (ft.lastValTS.map Val.str)
    (some (.str curTz))
  let _ ← checkTZ curTz
  .ok (.obj (snapFields ft.routeName ft.trainNum ft.idVal lastUpdate sts curTz))

/-- `defaultdict(list)` append: `_trains[key].append(v)`, preserving
first-appearance key order. -/
def groupAdd (acc : List (String × List Val)) (k : String) (v : Val) :
    List (String × List Val) :=
  match acc with
  | [] => [(k, [v])]
  | (kk, vs) :: rest =>
      if kk = k then (kk, vs ++ [v]) :: rest else (kk, vs) :: groupAdd rest k v

/-- The outer `for _train in trains["features"]` loop of `parse_trains`. -/
def trainsLoop (fmt1Ok fmt2Ok : String → Bool) :
    List Feature → List (String × List Val) → Except Unit (List (String × List Val))
  | [], acc => .ok acc
  | ft :: rest, acc => do
      let snap ← parseFeature fmt1Ok fmt2Ok ft
      trainsLoop fmt1Ok fmt2Ok rest (groupAdd acc ft.trainNum snap)

/-- `amtrak.parse_trains` over the feature list of the feed. -/
def parse_trains (fmt1Ok fmt2Ok : String → Bool) (features : List Feature) :
    Except Unit (List (String × List Val)) :=
  trainsLoop fmt1Ok fmt2Ok features []

/-- `Except.isOk` as a plain Bool (for stating that a run succeeded). -/
def exceptOk {ε α : Type} : Except ε α → Bool
  | .ok _ => true
  | .error _ => false

/-! ### Error propagation through the parser loops -/

theorem stationsLoop_error (fmt1Ok fmt2Ok : String → Bool) (ft : Feature)
    (l : List Nat) (acc : List (String × Val)) (i : Nat)
    (doc : List (String × Val)) (hmem : i ∈ l)
    (hslot : ft.stationSlots i = some doc)
    (hstop : parseStop fmt1Ok fmt2Ok doc = .error ()) :
    stationsLoop fmt1Ok fmt2Ok ft l acc = .error () := by
  induction l generalizing acc with
  | nil => cases hmem
  | cons j rest ih =>
      by_cases hj : i = j
      · subst hj
        simp only [stationsLoop, hslot, hstop, errBind]
      · have hmem' : i ∈ rest := by
          cases hmem with
          | head => exact absurd rfl hj
          | tail _ h => exact h
        simp only [stationsLoop]
        cases hsj : ft.stationSlots j with
        | none => exact ih acc hmem'
        | some doc' =>
            cases hpd : parseStop fmt1Ok fmt2Ok doc' with
            | error e => cases e; simp only [hpd, errBind]
            | ok ce =>
                simp only [hpd, okBind]
                exact ih _ hmem'

theorem trainsLoop_error (fmt1Ok fmt2Ok : String → Bool) (l : List Feature)
    (acc : List (String × List Val)) (ft : Feature) (hmem : ft ∈ l)
    (hft : parseFeature fmt1Ok fmt2Ok ft = .error ()) :
    trainsLoop fmt1Ok fmt2Ok l acc = .error () := by
  induction l generalizing acc with
  | nil => cases hmem
  | cons g rest ih =>
      cases hmem with
      | head => simp only [trainsLoop, hft, errBind]
      | tail _ h =>
          simp only [trainsLoop]
          cases hg : parseFeature fmt1Ok fmt2Ok g with
          | error e => cases e; rfl
          | ok snap => simp only [okBind]; exact ih _ h

theorem parseFeature_error_of_stations (fmt1Ok fmt2Ok : String → Bool)
    (ft : Feature) (hst : parseFeatureStations fmt1Ok fmt2Ok ft = .error ()) :
    parseFeature fmt1Ok fmt2Ok ft = .error () := by
  simp only [parseFeature, hst, errBind]

/-! ### C7: a malformed per-stop record and the fate of the whole parse -/

/-- A well-formed stop (code `AAA`, Eastern zone, no date fields). -/
def goodStopC7 : List (String × Val) := [("code", .str "AAA"), ("tz", .str "E")]

/-- A malformed stop: its timezone code `X` is not in `TIMEZONES`. -/
def badStopC7 : List (String × Val) := [("code", .str "BBB"), ("tz", .str "X")]

/-- A feature with a good `Station0` and the malformed `Station1`. -/
def featC7 : Feature :=
  { stationSlots := fun i =>
      if i = 0 then some goodStopC7 else if i = 1 then some badStopC7 else none
    eventCode := none
    originTZ := "E"
    trainNum := "123"
    routeName := .str "Acela"
    idVal := .str "9"
    lastValTS := none }

/-- The same feature without the malformed stop. -/
def featC7ok : Feature :=
  { featC7 with stationSlots := fun i => if i = 0 then some goodStopC7 else none }

def alwaysOkFmt : String → Bool := fun _ => true

/-- Counterexample to C7 as stated: a feed whose only blemish is one stop
with the unknown timezone code `X` makes the whole `parse_trains` call fail
(no per-stop skipping), while the same feed without that stop parses fine. -/
theorem parse_trains_rejects_bad_stop :
    parse_trains alwaysOkFmt alwaysOkFmt [featC7] = .error () ∧
      exceptOk (parse_trains alwaysOkFmt alwaysOkFmt [featC7ok]) = true := by
  constructor
  · decide
  · decide

/-- C7 amended: an individual malformed per-stop record (e.g. an unrecognized
timezone code) is not skipped — any populated `Station{i}` slot (`i < 100`)
whose document fails to parse makes the entire `parse_trains` call fail. -/
theorem parse_trains_fails_on_bad_stop (fmt1Ok fmt2Ok : String → Bool)
    (feed : List Feature) (ft : Feature) (i : Nat) (doc : List (String × Val))
    (hmem : ft ∈ feed) (hi : i < 100) (hslot : ft.stationSlots i = some doc)
    (hstop : parseStop fmt1Ok fmt2Ok doc = .error ()) :
    parse_trains fmt1Ok fmt2Ok feed = .error () := by
  apply trainsLoop_error fmt1Ok fmt2Ok feed [] ft hmem
  apply parseFeature_error_of_stations
  exact stationsLoop_error fmt1Ok fmt2Ok ft (List.range 100) [] i doc
    (List.mem_range.mpr hi) hslot hstop

/-- Witness for the amended C7 at the concrete malformed feed. -/
theorem parse_trains_fails_on_bad_stop_witness :
    parse_trains alwaysOkFmt alwaysOkFmt [featC7] = .error () :=
  parse_trains_fails_on_bad_stop alwaysOkFmt alwaysOkFmt [featC7] featC7 1
    badStopC7 (List.Mem.head _) (by decide) (by decide) (by decide)

/-! ### C10: a non-null `EventCode` matching no parsed station -/

/-- C10: when any feature's `EventCode` is non-null and absent from the
station map parsed out of that same feature's `Station0..Station99` fields,
the `_stations[EventCode]` lookup fails and the entire `parse_trains` call
aborts with an error. -/
theorem parse_trains_fails_on_unmatched_event_code
    (fmt1Ok fmt2Ok : String → Bool) (feed : List Feature) (ft : Feature)
    (c : String) (m : List (String × Val)) (hmem : ft ∈ feed)
    (hec : ft.eventCode = some c)
    (hst : parseFeatureStations fmt1Ok fmt2Ok ft = .ok m)
    (hnone : jget m c = none) :
    parse_trains fmt1Ok fmt2Ok feed = .error () := by
  apply trainsLoop_error fmt1Ok fmt2Ok feed [] ft hmem
  simp only [parseFeature, featureCurTz, hst, okBind, hec, hnone, errBind]

/-- A feature whose `EventCode` (`ZZZ`) is not among its parsed stations. -/
def featC10 : Feature :=
  { stationSlots := fun i => if i = 0 then some goodStopC7 else none
    eventCode := some "ZZZ"
    originTZ := "E"
    trainNum := "123"
    routeName := .str "Acela"
    idVal := .str "9"
    lastValTS := none }

/-- The waypoint entry `parseStop` builds from `goodStopC7`. -/
def stopEntryAAA : Val :=
  .obj
    [("code", .str "AAA"), ("tz", .str "America/New_York"),
     ("arrived", .bool false), ("departed", .bool false),
     ("scheduled", .obj
       [("arrival", .null), ("departure", .null), ("comment", .null)]),
     ("estimated", .obj
       [("arrival", .null), ("departure", .null),
        ("arrival_comment", .null), ("departure_comment", .null)]),
     ("actual", .obj
       [("arrival", .null), ("departure", .null), ("comment", .null)])]

/-- Witness for C10 at a concrete feed. -/
theorem parse_trains_fails_on_unmatched_event_code_witness :
    parse_trains alwaysOkFmt alwaysOkFmt [featC10] = .error () :=
  parse_trains_fails_on_unmatched_event_code alwaysOkFmt alwaysOkFmt
    [featC10] featC10 "ZZZ" [("AAA", stopEntryAAA)]
    (List.Mem.head _) (by decide) (by decide) (by decide)

/-! ## `worker.update_trains_in_db` (the IngestionReconciler)

The persisted state is a `DBState`: the `trains` table rows (in insertion
order — SQL `first()` reads the first match), the `stations` table rows
(never touched by `update_trains_in_db`) and the `metadata` rows. One call to
`update_trains_in_db` is one transaction: the internal computation
(`runUpdateTrains`) threads the would-be session state through `Except`, and
the surrounding `try/except` with `session.rollback()` makes a failed cycle
return the original `DBState` unchanged, while `session.commit()` makes a
successful cycle return the fully updated one. -/

/-- A row of the `trains` table.
`train_state` is the nullable `String` column (`none` = SQL NULL, which the
code stores when a snapshot carries `"state": null`); `route_name` and
`departure_date` hold the raw values assigned to the ORM attributes;
timestamps are abstract ticks. -/
structure TrainRow where
  train_number : String
  train_id : String
  route_name : Val
  departure_date : Option Val
  train_state : Option String
  stations_snapshot : Option Val
  data : Option Val
  updated_at : Nat
  deriving DecidableEq, Repr

/-- A row of the `stations` table. `update_trains_in_db` never reads or
writes this table; the float coordinate columns are omitted because no
modelled operation touches them. -/
structure StationRow where
  code : String
  name : String
  data : Option Val
  updated_at : Nat
  deriving DecidableEq, Repr

/-- A row of the `metadata` table. -/
structure MetaRow where
  key : String
  value : String
  updated_at : Nat
  deriving DecidableEq, Repr

structure DBState where
  trains : List TrainRow
  stations : List StationRow
  metadata : List MetaRow
  deriving DecidableEq, Repr

def rowKey (r : TrainRow) : String × String := (r.train_number, r.train_id)

/-- `train.get("state", "")` as it lands in the `train_state` column:
a missing key gives `""`, an explicit `null` gives SQL NULL, a string gives
itself (non-string values end up as their DB text, which no claim uses). -/
def pyGetState (doc : List (String × Val)) : Option String :=
  match jget doc "state" with
  | none => some ""
  | some .null => none
  | some (.str s) => some s
  | some v => some (pyStr v)

/-- `if stations_data and train.get("stations"): relevant_stations = {...}`:
the subset of the cached station data whose codes appear among this train's
stations; `None` when either side is falsy; an error when the `stations`
value is truthy but not a dict (`.keys()` raises). -/
def relevantStations (sd : Option (List (String × Val)))
    (doc : List (String × Val)) : Except Unit (Option Val) :=
  match sd with
  | none => .ok none
  | some sdata =>
      if sdata.isEmpty then .ok none
      else
        match jget doc "stations" with
        | none => .ok none
        | some v =>
            if truthy v then
              match v with
              | .obj sts =>
                  .ok (some (.obj (sts.filterMap
                    (fun p => (jget sdata p.1).map (fun w => (p.1, w))))))
              | _ => .error ()
            else .ok none

/-- `serialize_for_json`: only `datetime` values (`hasattr(_, "isoformat")`)
are converted, to their ISO string. -/
def serialize_for_json (v : Val) : Val :=
  match v with
  | .date d => .str (isoOf d)
  | v => v

/-- One iteration of `for key in ["departure_date", "last_update",
"last_fetched", "scheduled_departure"]: if key in t and t[key]: ...`. -/
def serializeKeyStep (fs : List (String × Val)) (k : String) :
    List (String × Val) :=
  match jget fs k with
  | some v => if truthy v then setKey fs k (serialize_for_json v) else fs
  | none => fs

/-- Substring test for Python `needle in haystack` on strings. -/
def prefMatch : List Char → List Char → Bool
  | [], _ => true
  | _ :: _, [] => false
  | p :: ps, c :: cs => p = c && prefMatch ps cs

def subMatch (pat : List Char) : List Char → Bool
  | [] => prefMatch pat []
  | c :: cs => prefMatch pat (c :: cs) || subMatch pat cs

/-- Python `k in v` for the container kinds that support it: key test on a
dict, substring test on a string, membership on a list; `TypeError`
otherwise. -/
def pyContains (v : Val) (k : String) : Except Unit Bool :=
  match v with
  | .obj fs => .ok (hasKey fs k)
  | .str s => .ok (subMatch k.data s.data)
  | .arr xs => .ok (xs.any (fun x => x = .str k))
  | _ => .error ()

/-- Python `v[k]` with a string key: dict lookup (`KeyError` when absent);
`TypeError` on any other container. -/
def pyGetItem (v : Val) (k : String) : Except Unit Val :=
  match v with
  | .obj fs =>
      match jget fs k with
      | some w => .ok w
      | none => .error ()
  | _ => .error ()

/-- `if field in station[category] and station[category][field]:
station[category][field] = serialize_for_json(...)` for one `field`. -/
def serializeField (v : Val) (f : String) : Except Unit Val := do
  let c ← pyContains v f
  if c then do
    let w ← pyGetItem v f
    if truthy w then
      match v with
      | .obj fs => .ok (.obj (setKey fs f (serialize_for_json w)))
      | _ => .error ()
    else .ok v
  else .ok v

/-- `if category in station and station[category]:` followed by the two field
updates, for one `category`. -/
def serializeCat (station : Val) (cat : String) : Except Unit Val := do
  let c ← pyContains station cat
  if c then do
    let v ← pyGetItem station cat
    if truthy v then do
      let v1 ← serializeField v "arrival"
      let v2 ← serializeField v1 "departure"
      match station with
      | .obj fs => .ok (.obj (setKey fs cat v2))
      | _ => .error ()
    else .ok station
  else .ok station

/-- The station-value walk of the serialization loop. -/
def serializeStation (station : Val) : Except Unit Val := do
  let s1 ← serializeCat station "scheduled"
  let s2 ← serializeCat s1 "estimated"
  serializeCat s2 "actual"

/-- The first serialization loop of `update_trains_in_db`: the four
top-level datetime keys. -/
def serializeTop (doc : List (String × Val)) : List (String × Val) :=
  serializeKeyStep (serializeKeyStep (serializeKeyStep
    (serializeKeyStep doc "departure_date") "last_update") "last_fetched")
    "scheduled_departure"

/-- `train_serializable = train.copy()` followed by the two serialization
loops of `update_trains_in_db` (the four top-level datetime keys, then the
nested station values; `.items()` on a non-dict `stations` value raises). -/
def serializeTrain (doc : List (String × Val)) :
    Except Unit (List (String × Val)) :=
  match jget (serializeTop doc) "stations" with
  | none => .ok (serializeTop doc)
  | some (.obj sts) => do
      let sts2 ← sts.mapM (fun p => do
        let st ← serializeStation p.2
        pure (p.1, st))
      .ok (setKey (serializeTop doc) "stations" (.obj sts2))
  | some _ => .error ()

/-- The update applied to an existing matched row (`if existing_train:`
branch): overwrite `route_name`, `departure_date`, `data`, `updated_at`;
rewrite `stations_snapshot` only when the incoming state differs from the
stored one; then set `train_state`. -/
def evolveOne (now : Nat) (sd : Option (List (String × Val)))
    (doc : List (String × Val)) (r : TrainRow) : Except Unit TrainRow := do
  let rel ← relevantStations sd doc
  let ser ← serializeTrain doc
  let ts := pyGetState doc
  .ok { r with
        route_name := jgetD doc "route_name" (.str "")
        departure_date := jget doc "departure_date"
        data := some (.obj ser)
        updated_at := now
        stations_snapshot :=
          if ts ≠ r.train_state then rel else r.stations_snapshot
        train_state := ts }

/-- The `else` branch: a new `Train` row (station snapshot set
unconditionally; `updated_at` from the column default). -/
def newRow (now : Nat) (sd : Option (List (String × Val))) (tn : String)
    (doc : List (String × Val)) : Except Unit TrainRow := do
  let rel ← relevantStations sd doc
  let ser ← serializeTrain doc
  .ok { train_number := tn
        train_id := pyStr (jgetD doc "id" (.str ""))
        route_name := jgetD doc "route_name" (.str "")
        departure_date := jget doc "departure_date"
        train_state := pyGetState doc
        stations_snapshot := rel
        data := some (.obj ser)
        updated_at := now }

/-- `session.query(Train).filter(number, id).first()` + update-or-add:
update the first row matching the key in place, else append a new row. -/
def updFirst (now : Nat) (sd : Option (List (String × Val))) (tn : String)
    (doc : List (String × Val)) (tid : String) :
    List TrainRow → Except Unit (List TrainRow)
  | [] => do
      let nr ← newRow now sd tn doc
      .ok [nr]
  | r :: rest =>
      if r.train_number = tn ∧ r.train_id = tid then do
        let r2 ← evolveOne now sd doc r
        .ok (r2 :: rest)
      else do
        let rest2 ← updFirst now sd tn doc tid rest
        .ok (r :: rest2)

/-- One snapshot's upsert. A non-dict snapshot raises on the first
`train.get`. -/
def upsertOne (now : Nat) (sd : Option (List (String × Val))) (tn : String)
    (t : Val) (rows : List TrainRow) : Except Unit (List TrainRow) :=
  match t with
  | .obj doc => updFirst now sd tn doc (pyStr (jgetD doc "id" (.str ""))) rows
  | _ => .error ()

def upsertList (now : Nat) (sd : Option (List (String × Val))) (tn : String) :
    List Val → List TrainRow → Except Unit (List TrainRow)
  | [], rows => .ok rows
  | t :: ts, rows => do
      let rows2 ← upsertOne now sd tn t rows
      upsertList now sd tn ts rows2

def upsertAll (now : Nat) (sd : Option (List (String × Val))) :
    List (String × List Val) → List TrainRow → Except Unit (List TrainRow)
  | [], rows => .ok rows
  | (tn, ts) :: rest, rows => do
      let rows2 ← upsertList now sd tn ts rows
      upsertAll now sd rest rows2

/-- The key a snapshot is tracked under in `seen_train_ids`
(`(train_number, str(train.get("id", "")))`); `none` for a non-dict snapshot
(which would have aborted the cycle before the add). -/
def upsertKey (tn : String) (t : Val) : Option (String × String) :=
  match t with
  | .obj doc => some (tn, pyStr (jgetD doc "id" (.str "")))
  | _ => none

def seenKeys (td : List (String × List Val)) : List (String × String) :=
  (td.map (fun p => p.2.filterMap (fun t => upsertKey p.1 t))).flatten

/-- The SQL `data->>'state'` extraction of the cleanup query: the string
value of the `state` field of a JSON object, else NULL (non-string values
render as text that can never equal `'Active'`/`'Predeparture'`, so mapping
them to `none` leaves the query's behavior unchanged). -/
def jsonStateText (data : Option Val) : Option String :=
  match data with
  | some (.obj fs) =>
      match jget fs "state" with
      | some (.str s) => some s
      | _ => none
  | _ => none

/-- The cleanup query filter: `train_state IN ('Active','Predeparture') OR
(data->>'state') IN ('Active','Predeparture')`. -/
def inActiveQuery (r : TrainRow) : Prop :=
  r.train_state = some "Active" ∨ r.train_state = some "Predeparture" ∨
    jsonStateText r.data = some "Active" ∨
    jsonStateText r.data = some "Predeparture"

instance (r : TrainRow) : Decidable (inActiveQuery r) := by
  unfold inActiveQuery; infer_instance

/-- Marking one vanished train as completed: force the column to
`"Completed"` when it differs, rewrite `data["state"]` only when `data` is a
truthy dict whose `state` is not already `"Completed"`, and touch
`updated_at` only when something changed. -/
def markCompleted (now : Nat) (r : TrainRow) : TrainRow :=
  match r.data with
  | some (.obj fs) =>
      if fs ≠ [] ∧ jget fs "state" ≠ some (.str "Completed") then
        { r with train_state := some "Completed"
                 data := some (.obj (setKey fs "state" (.str "Completed")))
                 updated_at := now }
      else if r.train_state ≠ some "Completed" then
        { r with train_state := some "Completed", updated_at := now }
      else r
  | _ =>
      if r.train_state ≠ some "Completed" then
        { r with train_state := some "Completed", updated_at := now }
      else r

/-- The cleanup pass over the `active_trains` query results. -/
def sweep (now : Nat) (seen : List (String × String))
    (rows : List TrainRow) : List TrainRow :=
  rows.map (fun r =>
    if inActiveQuery r ∧ rowKey r ∉ seen then markCompleted now r else r)

/-- `datetime.now().isoformat()` for the metadata value at tick `now`. -/
def isoNow (now : Nat) : String := "ts(" ++ toString now ++ ")"

/-- Update-or-insert of the `last_train_update` metadata row. -/
def metaUpdate (now : Nat) : List MetaRow → List MetaRow
  | [] => [⟨"last_train_update", isoNow now, now⟩]
  | m :: rest =>
      if m.key = "last_train_update" then ⟨m.key, isoNow now, now⟩ :: rest
      else m :: metaUpdate now rest

/-- The body of `update_trains_in_db`'s `try:` block — the whole
transaction: upsert every snapshot, sweep vanished actives, stamp the
metadata. -/
def runUpdateTrains (now : Nat) (td : List (String × List Val))
    (sd : Option (List (String × Val))) (db : DBState) :
    Except Unit DBState := do
  let trains1 ← upsertAll now sd td db.trains
  let trains2 := sweep now (seenKeys td) trains1
  .ok { db with trains := trains2, metadata := metaUpdate now db.metadata }

/-- `update_trains_in_db`: empty input returns immediately; otherwise the
transaction commits on success and rolls back (leaving the store untouched)
on any exception. -/
def update_trains_in_db (now : Nat) (td : List (String × List Val))
    (sd : Option (List (String × Val))) (db : DBState) : DBState :=
  if td.isEmpty then db
  else
    match runUpdateTrains now td sd db with
    | .ok db2 => db2
    | .error _ => db

/-! ### Basic lemmas about dict updates and row lookups -/

theorem jget_setKey_self (fs : List (String × Val)) (k : String) (v : Val) :
    jget (setKey fs k v) k = some v := by
  induction fs with
  | nil => simp [setKey, jget]
  | cons p rest ih =>
      by_cases h : p.1 = k
      · simp [setKey, h, jget]
      · simp [setKey, h, jget, ih]

theorem jget_setKey_ne (fs : List (String × Val)) (k k' : String) (v : Val)
    (hne : k' ≠ k) : jget (setKey fs k v) k' = jget fs k' := by
  induction fs with
  | nil =>
      simp only [setKey, jget]
      rw [if_neg (fun h => hne h.symm)]
  | cons p rest ih =>
      by_cases h : p.1 = k
      · subst h
        simp only [setKey, if_pos rfl, jget]
        rw [if_neg (fun h2 => hne h2.symm), if_neg (fun h2 => hne h2.symm)]
      · simp only [setKey, if_neg h, jget]
        by_cases h2 : p.1 = k'
        · simp [h2]
        · simp [h2, ih]

theorem serializeKeyStep_pres (fs : List (String × Val)) (k k' : String)
    (hne : k' ≠ k) : jget (serializeKeyStep fs k) k' = jget fs k' := by
  unfold serializeKeyStep
  cases jget fs k with
  | none => rfl
  | some v =>
      by_cases ht : truthy v
      · simp only [ht, if_true, jget_setKey_ne fs k k' _ hne]
      · simp [ht]

/-- The serialization loops do not touch the `state` key: the persisted
`data` blob's `state` field is the snapshot's `state` field. -/
theorem serializeTop_state (doc : List (String × Val)) :
    jget (serializeTop doc) "state" = jget doc "state" := by
  unfold serializeTop
  rw [serializeKeyStep_pres _ _ _ (by decide),
    serializeKeyStep_pres _ _ _ (by decide),
    serializeKeyStep_pres _ _ _ (by decide),
    serializeKeyStep_pres _ _ _ (by decide)]

theorem serializeTrain_state (doc ser : List (String × Val))
    (h : serializeTrain doc = .ok ser) :
    jget ser "state" = jget doc "state" := by
  unfold serializeTrain at h
  split at h
  · cases h
    exact serializeTop_state doc
  · rename_i sts _
    cases hm : sts.mapM (fun p => do
        let st ← serializeStation p.2
        pure (p.1, st)) with
    | error e => rw [hm] at h; cases h
    | ok sts2 =>
        rw [hm] at h
        simp only [okBind] at h
        cases h
        rw [jget_setKey_ne _ _ _ _ (by decide)]
        exact serializeTop_state doc
  · cases h

def findRowL (rows : List TrainRow) (k : String × String) : Option TrainRow :=
  rows.find? (fun r => decide (rowKey r = k))

/-! ### C5: a failed cycle leaves the store untouched -/

/-- C5: whenever the transaction body fails at any point, `update_trains_in_db`
rolls back — the entity rows, the reference rows and the metadata rows
(including the `last_train_update` timestamp) are exactly the pre-cycle ones. -/
theorem update_trains_rolls_back (now : Nat) (td : List (String × List Val))
    (sd : Option (List (String × Val))) (db : DBState) (e : Unit)
    (hfail : runUpdateTrains now td sd db = .error e) :
    update_trains_in_db now td sd db = db := by
  unfold update_trains_in_db
  by_cases hemp : td.isEmpty
  · simp [hemp]
  · simp [hemp, hfail]

/-- A cycle input whose second snapshot is not even a dict: the upsert loop
raises midway (after the first snapshot was already applied). -/
def tdC5 : List (String × List Val) :=
  [("2", [.obj [("id", .str "7")], .num 3])]

def rowC5 : TrainRow :=
  { train_number := "1", train_id := "9", route_name := .str "Acela"
    departure_date := none, train_state := some "Active"
    stations_snapshot := none, data := some (.obj [("state", .str "Active")])
    updated_at := 0 }

def dbC5 : DBState :=
  ⟨[rowC5], [⟨"AAA", "Aardvark", none, 0⟩],
    [⟨"last_train_update", "ts(0)", 0⟩]⟩

/-- Witness for C5: the concrete failing cycle leaves `dbC5` unchanged. -/
theorem update_trains_rolls_back_witness :
    update_trains_in_db 5 tdC5 none dbC5 = dbC5 :=
  update_trains_rolls_back 5 tdC5 none dbC5 () (by decide)

/-! ### Row-preservation of the upsert loop for unseen keys -/

theorem evolveOne_rowKey (now : Nat) (sd : Option (List (String × Val)))
    (doc : List (String × Val)) (r r2 : TrainRow)
    (h : evolveOne now sd doc r = .ok r2) : rowKey r2 = rowKey r := by
  unfold evolveOne at h
  cases hrel : relevantStations sd doc with
  | error e => rw [hrel] at h; cases h
  | ok rel =>
      rw [hrel] at h
      simp only [okBind] at h
      cases hser : serializeTrain doc with
      | error e => rw [hser] at h; cases h
      | ok ser =>
          rw [hser] at h
          simp only [okBind] at h
          cases h
          rfl

theorem updFirst_get_ne (now : Nat) (sd : Option (List (String × Val)))
    (tn : String) (doc : List (String × Val)) (tid : String)
    (rows rows2 : List TrainRow) (h : updFirst now sd tn doc tid rows = .ok rows2)
    (i : Nat) (r : TrainRow) (hi : rows.get? i = some r)
    (hne : rowKey r ≠ (tn, tid)) : rows2.get? i = some r := by
  induction rows generalizing rows2 i with
  | nil => cases hi
  | cons r0 rest ih =>
      by_cases hk : r0.train_number = tn ∧ r0.train_id = tid
      · simp only [updFirst, if_pos hk] at h
        cases hev : evolveOne now sd doc r0 with
        | error e => rw [hev] at h; cases h
        | ok r2 =>
            rw [hev] at h
            simp only [okBind] at h
            cases h
            cases i with
            | zero =>
                cases hi
                exact absurd (show rowKey r = (tn, tid) by
                  simp [rowKey, hk.1, hk.2]) hne
            | succ j => exact hi
      · simp only [updFirst, if_neg hk] at h
        cases hrec : updFirst now sd tn doc tid rest with
        | error e => rw [hrec] at h; cases h
        | ok rest2 =>
            rw [hrec] at h
            simp only [okBind] at h
            cases h
            cases i with
            | zero => exact hi
            | succ j => exact ih rest2 hrec j hi

theorem upsertOne_get_ne (now : Nat) (sd : Option (List (String × Val)))
    (tn : String) (t : Val) (rows rows2 : List TrainRow)
    (h : upsertOne now sd tn t rows = .ok rows2) (i : Nat) (r : TrainRow)
    (hi : rows.get? i = some r) (hne : upsertKey tn t ≠ some (rowKey r)) :
    rows2.get? i = some r := by
  cases t with
  | obj doc =>
      simp only [upsertOne] at h
      refine updFirst_get_ne now sd tn doc _ rows rows2 h i r hi ?_
      intro hc
      apply hne
      simp only [upsertKey, hc]
  | null => cases h
  | bool b => cases h
  | num n => cases h
  | str s2 => cases h
  | date d => cases h
  | arr xs => cases h

theorem upsertList_get_ne (now : Nat) (sd : Option (List (String × Val)))
    (tn : String) (ts : List Val) (rows rows2 : List TrainRow)
    (h : upsertList now sd tn ts rows = .ok rows2) (i : Nat) (r : TrainRow)
    (hi : rows.get? i = some r)
    (hne : ∀ t ∈ ts, upsertKey tn t ≠ some (rowKey r)) :
    rows2.get? i = some r := by
  induction ts generalizing rows with
  | nil => cases h; exact hi
  | cons t rest ih =>
      simp only [upsertList] at h
      cases h1 : upsertOne now sd tn t rows with
      | error e => rw [h1] at h; cases h
      | ok rowsMid =>
          rw [h1] at h
          simp only [okBind] at h
          exact ih rowsMid h
            (upsertOne_get_ne now sd tn t rows rowsMid h1 i r hi
              (hne t (List.mem_cons_self t rest)))
            (fun t2 ht2 => hne t2 (List.mem_cons_of_mem t ht2))

theorem upsertAll_get_ne (now : Nat) (sd : Option (List (String × Val)))
    (td : List (String × List Val)) (rows rows2 : List TrainRow)
    (h : upsertAll now sd td rows = .ok rows2) (i : Nat) (r : TrainRow)
    (hi : rows.get? i = some r)
    (hne : ∀ p ∈ td, ∀ t ∈ p.2, upsertKey p.1 t ≠ some (rowKey r)) :
    rows2.get? i = some r := by
  induction td generalizing rows with
  | nil => cases h; exact hi
  | cons p rest ih =>
      obtain ⟨tn, ts⟩ := p
      simp only [upsertAll] at h
      cases h1 : upsertList now sd tn ts rows with
      | error e => rw [h1] at h; cases h
      | ok rowsMid =>
          rw [h1] at h
          simp only [okBind] at h
          exact ih rowsMid h
            (upsertList_get_ne now sd tn ts rows rowsMid h1 i r hi
              (fun t ht => hne (tn, ts) (List.mem_cons_self _ rest) t ht))
            (fun p2 hp2 t2 ht2 => hne p2 (List.mem_cons_of_mem _ hp2) t2 ht2)

theorem mem_seenKeys (td : List (String × List Val)) (p : String × List Val)
    (t : Val) (k : String × String) (hp : p ∈ td) (ht : t ∈ p.2)
    (hk : upsertKey p.1 t = some k) : k ∈ seenKeys td := by
  unfold seenKeys
  rw [List.mem_flatten]
  exact ⟨p.2.filterMap (fun t => upsertKey p.1 t),
    List.mem_map_of_mem _ hp, List.mem_filterMap.mpr ⟨t, ht, hk⟩⟩

theorem upsertAll_get_unseen (now : Nat) (sd : Option (List (String × Val)))
    (td : List (String × List Val)) (rows rows2 : List TrainRow)
    (h : upsertAll now sd td rows = .ok rows2) (i : Nat) (r : TrainRow)
    (hi : rows.get? i = some r) (hunseen : rowKey r ∉ seenKeys td) :
    rows2.get? i = some r :=
  upsertAll_get_ne now sd td rows rows2 h i r hi
    (fun p hp t ht hk => hunseen (mem_seenKeys td p t _ hp ht hk))

/-! ### Properties of `markCompleted` and `sweep` -/

theorem markCompleted_state (now : Nat) (r : TrainRow) :
    (markCompleted now r).train_state = some "Completed" := by
  unfold markCompleted
  cases r.data with
  | none => by_cases h : r.train_state = some "Completed" <;> simp [h]
  | some v =>
      cases v with
      | obj fs =>
          by_cases h2 : fs ≠ [] ∧ jget fs "state" ≠ some (.str "Completed")
          · simp [h2]
          · by_cases h : r.train_state = some "Completed" <;> simp [h2, h]
      | null => by_cases h : r.train_state = some "Completed" <;> simp [h]
      | bool b => by_cases h : r.train_state = some "Completed" <;> simp [h]
      | num n => by_cases h : r.train_state = some "Completed" <;> simp [h]
      | str s2 => by_cases h : r.train_state = some "Completed" <;> simp [h]
      | date d => by_cases h : r.train_state = some "Completed" <;> simp [h]
      | arr xs => by_cases h : r.train_state = some "Completed" <;> simp [h]

theorem markCompleted_dataState (now : Nat) (r : TrainRow)
    (fs : List (String × Val)) (hd : r.data = some (.obj fs)) (hne : fs ≠ []) :
    jsonStateText (markCompleted now r).data = some "Completed" := by
  unfold markCompleted
  split
  · rename_i fs2 heq
    rw [hd] at heq
    injection heq with heq2
    injection heq2 with heq3
    subst heq3
    by_cases h2 : jget fs "state" ≠ some (.str "Completed")
    · rw [if_pos ⟨hne, h2⟩]
      simp [jsonStateText, jget_setKey_self]
    · push_neg at h2
      rw [if_neg (fun hc : fs ≠ [] ∧ jget fs "state" ≠ some (Val.str "Completed") => hc.2 h2)]
      by_cases h1 : r.train_state ≠ some "Completed"
      · rw [if_pos h1]
        simp [jsonStateText, hd, h2]
      · rw [if_neg h1]
        simp [jsonStateText, hd, h2]
  · rename_i hno
    exact absurd rfl (by rw [hd] at hno; exact fun h => hno fs h)

theorem markCompleted_rowKey (now : Nat) (r : TrainRow) :
    rowKey (markCompleted now r) = rowKey r := by
  unfold markCompleted
  cases r.data with
  | none => by_cases h : r.train_state = some "Completed" <;> simp [h, rowKey]
  | some v =>
      cases v with
      | obj fs =>
          by_cases h2 : fs ≠ [] ∧ jget fs "state" ≠ some (.str "Completed")
          · simp [h2, rowKey]
          · by_cases h : r.train_state = some "Completed" <;> simp [h2, h, rowKey]
      | null => by_cases h : r.train_state = some "Completed" <;> simp [h, rowKey]
      | bool b => by_cases h : r.train_state = some "Completed" <;> simp [h, rowKey]
      | num n => by_cases h : r.train_state = some "Completed" <;> simp [h, rowKey]
      | str s2 => by_cases h : r.train_state = some "Completed" <;> simp [h, rowKey]
      | date d => by_cases h : r.train_state = some "Completed" <;> simp [h, rowKey]
      | arr xs => by_cases h : r.train_state = some "Completed" <;> simp [h, rowKey]

theorem sweep_get (now : Nat) (seen : List (String × String))
    (rows : List TrainRow) (i : Nat) :
    (sweep now seen rows).get? i = (rows.get? i).map (fun r =>
      if inActiveQuery r ∧ rowKey r ∉ seen then markCompleted now r else r) := by
  unfold sweep
  exact List.get?_map _ _ _

/-! ### C1: disappearance handling -/

def rowC1 : TrainRow :=
  { train_number := "1", train_id := "9", route_name := .str "Acela"
    departure_date := none, train_state := some "Active"
    stations_snapshot := none, data := some (.obj []), updated_at := 0 }

def dbC1 : DBState := ⟨[rowC1], [], []⟩

def tdC1 : List (String × List Val) := [("2", [.obj [("id", .str "7")]])]

/-- Counterexample to C1 as stated: `rowC1` is `Active` and absent from the
cycle's seen set, its `data` blob is the (empty) JSON object `{}` — after the
cycle its `train_state` is forced to `"Completed"` but its `data` is left as
`{}`, with no `state` field at all, because the code's truthiness check
`if train.data and isinstance(train.data, dict)` skips falsy dicts. -/
theorem disappearance_counterexample :
    (update_trains_in_db 5 tdC1 none dbC1).trains.map
      (fun r => (rowKey r, r.train_state, r.data)) =
    [(("1", "9"), some "Completed", some (.obj [])),
     (("2", "7"), some "", some (.obj [("id", .str "7")]))] := by
  decide

def isNonemptyObj : Option Val → Bool
  | some (.obj (_ :: _)) => true
  | _ => false

/-- C1 amended: a persisted entity whose column state or embedded state is
`Active`/`Predeparture` and whose key is not seen this cycle is marked
completed: its `train_state` column always becomes `"Completed"`, and its
embedded `data.state` additionally becomes `"Completed"` provided the data
blob is a non-empty JSON object (a null, empty or non-object blob is left
unchanged). -/
theorem disappearance_marks_completed (now : Nat)
    (td : List (String × List Val)) (sd : Option (List (String × Val)))
    (db db2 : DBState) (i : Nat) (r : TrainRow)
    (hrun : runUpdateTrains now td sd db = .ok db2)
    (hi : db.trains.get? i = some r) (hact : inActiveQuery r)
    (hunseen : rowKey r ∉ seenKeys td) :
    db2.trains.get? i = some (markCompleted now r) ∧
      (markCompleted now r).train_state = some "Completed" ∧
      (isNonemptyObj r.data = true →
        jsonStateText (markCompleted now r).data = some "Completed") := by
  unfold runUpdateTrains at hrun
  cases hup : upsertAll now sd td db.trains with
  | error e => rw [hup] at hrun; cases hrun
  | ok trains1 =>
      rw [hup] at hrun
      simp only [okBind] at hrun
      cases hrun
      refine ⟨?_, markCompleted_state now r, ?_⟩
      · have h1 : trains1.get? i = some r :=
          upsertAll_get_unseen now sd td db.trains trains1 hup i r hi hunseen
        rw [sweep_get, h1]
        simp only [Option.map]
        rw [if_pos ⟨hact, hunseen⟩]
      · intro hobj
        cases hd : r.data with
        | none => rw [hd] at hobj; cases hobj
        | some v =>
            cases v with
            | obj fs =>
                cases fs with
                | nil => rw [hd] at hobj; cases hobj
                | cons f rest =>
                    exact markCompleted_dataState now r _ hd (by simp)
            | null => rw [hd] at hobj; cases hobj
            | bool b => rw [hd] at hobj; cases hobj
            | num n => rw [hd] at hobj; cases hobj
            | str s2 => rw [hd] at hobj; cases hobj
            | date d => rw [hd] at hobj; cases hobj
            | arr xs => rw [hd] at hobj; cases hobj

/-- The post-state of the C1 cycle, for the witness. -/
def dbC1After : DBState :=
  ⟨[{ rowC1 with train_state := some "Completed", updated_at := 5 },
    { train_number := "2", train_id := "7", route_name := .str ""
      departure_date := none, train_state := some ""
      stations_snapshot := none, data := some (.obj [("id", .str "7")])
      updated_at := 5 }],
   [], [⟨"last_train_update", isoNow 5, 5⟩]⟩

/-- Witness for the amended C1 at the concrete vanished `rowC1`. -/
theorem disappearance_marks_completed_witness :
    dbC1After.trains.get? 0 = some (markCompleted 5 rowC1) ∧
      (markCompleted 5 rowC1).train_state = some "Completed" ∧
      (isNonemptyObj rowC1.data = true →
        jsonStateText (markCompleted 5 rowC1).data = some "Completed") :=
  disappearance_marks_completed 5 tdC1 none dbC1 dbC1After 0 rowC1
    (by decide) (by decide) (by decide) (by decide)

/-! ### C6: when `stations_snapshot` changes -/

theorem markCompleted_snapshot (now : Nat) (r : TrainRow) :
    (markCompleted now r).stations_snapshot = r.stations_snapshot := by
  unfold markCompleted
  cases r.data with
  | none => by_cases h : r.train_state = some "Completed" <;> simp [h]
  | some v =>
      cases v with
      | obj fs =>
          by_cases h2 : fs ≠ [] ∧ jget fs "state" ≠ some (.str "Completed")
          · simp [h2]
          · by_cases h : r.train_state = some "Completed" <;> simp [h2, h]
      | null => by_cases h : r.train_state = some "Completed" <;> simp [h]
      | bool b => by_cases h : r.train_state = some "Completed" <;> simp [h]
      | num n => by_cases h : r.train_state = some "Completed" <;> simp [h]
      | str s2 => by_cases h : r.train_state = some "Completed" <;> simp [h]
      | date d => by_cases h : r.train_state = some "Completed" <;> simp [h]
      | arr xs => by_cases h : r.train_state = some "Completed" <;> simp [h]

theorem evolveOne_eq (now : Nat) (sd : Option (List (String × Val)))
    (doc : List (String × Val)) (r : TrainRow) (rel : Option Val)
    (ser : List (String × Val)) (hrel : relevantStations sd doc = .ok rel)
    (hser : serializeTrain doc = .ok ser) :
    evolveOne now sd doc r = .ok { r with
      route_name := jgetD doc "route_name" (.str "")
      departure_date := jget doc "departure_date"
      data := some (.obj ser)
      updated_at := now
      stations_snapshot :=
        if pyGetState doc ≠ r.train_state then rel else r.stations_snapshot
      train_state := pyGetState doc } := by
  unfold evolveOne
  rw [hrel]
  simp only [okBind]
  rw [hser]
  simp only [okBind]

/-- C6 amended: for an existing row, the upsert modifies `stations_snapshot`
only when the snapshot's declared state differs from the stored
`train_state` (and the completion sweep never modifies it); but when the
state does differ, the snapshot is overwritten with the freshly computed
relevant-station set, which is `NULL` when the reference cache is
unavailable this cycle (`relevantStations none doc = none`) — the previous
snapshot is then cleared, not left untouched. -/
theorem snapshot_update_semantics :
    (∀ (now : Nat) (sd : Option (List (String × Val)))
        (doc : List (String × Val)) (r r2 : TrainRow),
        evolveOne now sd doc r = .ok r2 → pyGetState doc = r.train_state →
        r2.stations_snapshot = r.stations_snapshot) ∧
    (∀ (now : Nat) (sd : Option (List (String × Val)))
        (doc : List (String × Val)) (r r2 : TrainRow) (rel : Option Val),
        relevantStations sd doc = .ok rel →
        evolveOne now sd doc r = .ok r2 → pyGetState doc ≠ r.train_state →
        r2.stations_snapshot = rel) ∧
    (∀ doc : List (String × Val), relevantStations none doc = .ok none) ∧
    (∀ (now : Nat) (seen : List (String × String)) (rows : List TrainRow)
        (i : Nat),
        ((sweep now seen rows).get? i).map TrainRow.stations_snapshot =
          (rows.get? i).map TrainRow.stations_snapshot) := by
  refine ⟨?_, ?_, ?_, ?_⟩
  · intro now sd doc r r2 h heq
    cases hrel : relevantStations sd doc with
    | error e =>
        unfold evolveOne at h
        rw [hrel] at h
        cases h
    | ok rel =>
        cases hser : serializeTrain doc with
        | error e =>
            unfold evolveOne at h
            rw [hrel] at h
            simp only [okBind] at h
            rw [hser] at h
            cases h
        | ok ser =>
            rw [evolveOne_eq now sd doc r rel ser hrel hser] at h
            injection h with h2
            rw [← h2]
            simp [heq]
  · intro now sd doc r r2 rel hrel h hne
    cases hser : serializeTrain doc with
    | error e =>
        unfold evolveOne at h
        rw [hrel] at h
        simp only [okBind] at h
        rw [hser] at h
        cases h
    | ok ser =>
        rw [evolveOne_eq now sd doc r rel ser hrel hser] at h
        injection h with h2
        rw [← h2]
        simp [hne]
  · intro doc
    rfl
  · intro now seen rows i
    rw [sweep_get]
    cases rows.get? i with
    | none => rfl
    | some r =>
        simp only [Option.map]
        by_cases hc : inActiveQuery r ∧ rowKey r ∉ seen
        · rw [if_pos hc, markCompleted_snapshot]
        · rw [if_neg hc]

def rowC6 : TrainRow :=
  { train_number := "1", train_id := "9", route_name := .str "Acela"
    departure_date := none, train_state := some "Active"
    stations_snapshot := some (.obj [("AAA", .str "x")])
    data := some (.obj [("state", .str "Active")]), updated_at := 0 }

def dbC6 : DBState := ⟨[rowC6], [], []⟩

def docC6same : List (String × Val) := [("id", .str "9"), ("state", .str "Active")]

def docC6change : List (String × Val) :=
  [("id", .str "9"), ("state", .str "Completed")]

def tdC6 : List (String × List Val) := [("1", [.obj docC6change])]

/-- Counterexample to C6 as stated: `rowC6` holds a previously captured
snapshot, the cycle changes its state (`Active` → `Completed`) while the
reference cache is unavailable (`stations_data = None`) — and the stored
snapshot is overwritten with `NULL`, not left untouched. -/
theorem snapshot_cleared_counterexample :
    (update_trains_in_db 5 tdC6 none dbC6).trains.map
      (fun r => (rowKey r, r.stations_snapshot)) = [(("1", "9"), none)] := by
  decide

/-- The rows `evolveOne` produces at the two C6 witness inputs. -/
def rowC6same : TrainRow :=
  { train_number := "1", train_id := "9", route_name := .str ""
    departure_date := none, train_state := some "Active"
    stations_snapshot := some (.obj [("AAA", .str "x")])
    data := some (.obj docC6same), updated_at := 5 }

def rowC6change : TrainRow :=
  { train_number := "1", train_id := "9", route_name := .str ""
    departure_date := none, train_state := some "Completed"
    stations_snapshot := none
    data := some (.obj docC6change), updated_at := 5 }

/-- Witness for the amended C6 at concrete inputs: an unchanged-state upsert
keeps the snapshot, a changed-state upsert with no cache clears it. -/
theorem snapshot_update_semantics_witness :
    rowC6same.stations_snapshot = rowC6.stations_snapshot ∧
      rowC6change.stations_snapshot = none ∧
      relevantStations none docC6change = .ok none :=
  ⟨snapshot_update_semantics.1 5 none docC6same rowC6 rowC6same
      (by decide) (by decide),
   snapshot_update_semantics.2.1 5 none docC6change rowC6 rowC6change none
      (by decide) (by decide) (by decide),
   snapshot_update_semantics.2.2.1 docC6change⟩

/-! ### Last-writer reasoning for seen keys

For a key observed this cycle, the row found by `findRowL` after the upsert
loop is the one produced by the last upsert of that key; the lemmas below
make that precise for an arbitrary row property `Q` that every upsert of the
key (re-)establishes. -/

theorem newRow_eq (now : Nat) (sd : Option (List (String × Val)))
    (tn : String) (doc : List (String × Val)) (rel : Option Val)
    (ser : List (String × Val)) (hrel : relevantStations sd doc = .ok rel)
    (hser : serializeTrain doc = .ok ser) :
    newRow now sd tn doc = .ok
      { train_number := tn
        train_id := pyStr (jgetD doc "id" (.str ""))
        route_name := jgetD doc "route_name" (.str "")
        departure_date := jget doc "departure_date"
        train_state := pyGetState doc
        stations_snapshot := rel
        data := some (.obj ser)
        updated_at := now } := by
  unfold newRow
  rw [hrel]
  simp only [okBind]
  rw [hser]
  simp only [okBind]

theorem newRow_rowKey (now : Nat) (sd : Option (List (String × Val)))
    (tn : String) (doc : List (String × Val)) (nr : TrainRow)
    (h : newRow now sd tn doc = .ok nr) :
    rowKey nr = (tn, pyStr (jgetD doc "id" (.str ""))) := by
  cases hrel : relevantStations sd doc with
  | error e => unfold newRow at h; rw [hrel] at h; cases h
  | ok rel =>
      cases hser : serializeTrain doc with
      | error e =>
          unfold newRow at h
          rw [hrel] at h
          simp only [okBind] at h
          rw [hser] at h
          cases h
      | ok ser =>
          rw [newRow_eq now sd tn doc rel ser hrel hser] at h
          injection h with h2
          rw [← h2]
          rfl

theorem updFirst_findRow_ne (now : Nat) (sd : Option (List (String × Val)))
    (tn : String) (doc : List (String × Val)) (tid : String)
    (rows rows2 : List TrainRow)
    (h : updFirst now sd tn doc tid rows = .ok rows2)
    (htid : tid = pyStr (jgetD doc "id" (.str "")))
    (k : String × String) (hk : k ≠ (tn, tid)) :
    findRowL rows2 k = findRowL rows k := by
  induction rows generalizing rows2 with
  | nil =>
      simp only [updFirst] at h
      cases hnr : newRow now sd tn doc with
      | error e => rw [hnr] at h; cases h
      | ok nr =>
          rw [hnr] at h
          simp only [okBind] at h
          cases h
          have hkey := newRow_rowKey now sd tn doc nr hnr
          simp only [findRowL, List.find?]
          rw [show (decide (rowKey nr = k)) = false from
            decide_eq_false (by rw [hkey, ← htid]; exact fun h2 => hk h2.symm)]
  | cons r rest ih =>
      by_cases hcond : r.train_number = tn ∧ r.train_id = tid
      · simp only [updFirst, if_pos hcond] at h
        cases hev : evolveOne now sd doc r with
        | error e => rw [hev] at h; cases h
        | ok r2 =>
            rw [hev] at h
            simp only [okBind] at h
            cases h
            have hk2 : rowKey r2 = rowKey r := evolveOne_rowKey now sd doc r r2 hev
            have hkr : rowKey r = (tn, tid) := by
              simp [rowKey, hcond.1, hcond.2]
            simp only [findRowL, List.find?]
            rw [show (decide (rowKey r2 = k)) = false from
                decide_eq_false (by rw [hk2, hkr]; exact fun h2 => hk h2.symm),
              show (decide (rowKey r = k)) = false from
                decide_eq_false (by rw [hkr]; exact fun h2 => hk h2.symm)]
      · simp only [updFirst, if_neg hcond] at h
        cases hrec : updFirst now sd tn doc tid rest with
        | error e => rw [hrec] at h; cases h
        | ok rest2 =>
            rw [hrec] at h
            simp only [okBind] at h
            cases h
            simp only [findRowL, List.find?]
            cases hpr : decide (rowKey r = k) with
            | true => rfl
            | false => exact ih rest2 hrec

theorem updFirst_findRow_self (Q : TrainRow → Prop) (now : Nat)
    (sd : Option (List (String × Val))) (tn : String)
    (doc : List (String × Val)) (tid : String) (rows rows2 : List TrainRow)
    (h : updFirst now sd tn doc tid rows = .ok rows2)
    (htid : tid = pyStr (jgetD doc "id" (.str "")))
    (hQe : ∀ r r2, evolveOne now sd doc r = .ok r2 → Q r2)
    (hQn : ∀ r2, newRow now sd tn doc = .ok r2 → Q r2) :
    ∀ r2, findRowL rows2 (tn, tid) = some r2 → Q r2 := by
  induction rows generalizing rows2 with
  | nil =>
      simp only [updFirst] at h
      cases hnr : newRow now sd tn doc with
      | error e => rw [hnr] at h; cases h
      | ok nr =>
          rw [hnr] at h
          simp only [okBind] at h
          cases h
          intro r2 hfind
          have hkey := newRow_rowKey now sd tn doc nr hnr
          simp only [findRowL, List.find?] at hfind
          rw [show (decide (rowKey nr = (tn, tid))) = true from
            decide_eq_true (by rw [hkey, ← htid])] at hfind
          cases hfind
          exact hQn nr hnr
  | cons r rest ih =>
      by_cases hcond : r.train_number = tn ∧ r.train_id = tid
      · simp only [updFirst, if_pos hcond] at h
        cases hev : evolveOne now sd doc r with
        | error e => rw [hev] at h; cases h
        | ok r2 =>
            rw [hev] at h
            simp only [okBind] at h
            cases h
            intro r3 hfind
            have hk2 : rowKey r2 = rowKey r := evolveOne_rowKey now sd doc r r2 hev
            have hkr : rowKey r = (tn, tid) := by
              simp [rowKey, hcond.1, hcond.2]
            simp only [findRowL, List.find?] at hfind
            rw [show (decide (rowKey r2 = (tn, tid))) = true from
              decide_eq_true (by rw [hk2, hkr])] at hfind
            injection hfind with hf
            rw [← hf]
            exact hQe r r2 hev
      · simp only [updFirst, if_neg hcond] at h
        cases hrec : updFirst now sd tn doc tid rest with
        | error e => rw [hrec] at h; cases h
        | ok rest2 =>
            rw [hrec] at h
            simp only [okBind] at h
            cases h
            intro r2 hfind
            simp only [findRowL, List.find?] at hfind
            rw [show (decide (rowKey r = (tn, tid))) = false from
              decide_eq_false (by
                intro h2
                exact hcond ⟨congrArg Prod.fst h2, congrArg Prod.snd h2⟩)] at hfind
            exact ih rest2 hrec r2 hfind

theorem upsertOne_findRow_ne (now : Nat) (sd : Option (List (String × Val)))
    (tn : String) (t : Val) (rows rows2 : List TrainRow)
    (h : upsertOne now sd tn t rows = .ok rows2) (k : String × String)
    (hk : upsertKey tn t ≠ some k) :
    findRowL rows2 k = findRowL rows k := by
  cases t with
  | obj doc =>
      exact updFirst_findRow_ne now sd tn doc _ rows rows2 h rfl k
        (fun h2 => hk (by rw [upsertKey, h2]))
  | null => cases h
  | bool b => cases h
  | num n => cases h
  | str s2 => cases h
  | date d => cases h
  | arr xs => cases h

theorem upsertList_findRow_ne (now : Nat) (sd : Option (List (String × Val)))
    (tn : String) (ts : List Val) (rows rows2 : List TrainRow)
    (h : upsertList now sd tn ts rows = .ok rows2) (k : String × String)
    (hk : ∀ t ∈ ts, upsertKey tn t ≠ some k) :
    findRowL rows2 k = findRowL rows k := by
  induction ts generalizing rows with
  | nil => cases h; rfl
  | cons t rest ih =>
      simp only [upsertList] at h
      cases h1 : upsertOne now sd tn t rows with
      | error e => rw [h1] at h; cases h
      | ok rowsMid =>
          rw [h1] at h
          simp only [okBind] at h
          rw [ih rowsMid h (fun t2 ht2 => hk t2 (List.mem_cons_of_mem t ht2))]
          exact upsertOne_findRow_ne now sd tn t rows rowsMid h1 k
            (hk t (List.mem_cons_self t rest))

theorem upsertAll_findRow_ne (now : Nat) (sd : Option (List (String × Val)))
    (td : List (String × List Val)) (rows rows2 : List TrainRow)
    (h : upsertAll now sd td rows = .ok rows2) (k : String × String)
    (hk : ∀ p ∈ td, ∀ t ∈ p.2, upsertKey p.1 t ≠ some k) :
    findRowL rows2 k = findRowL rows k := by
  induction td generalizing rows with
  | nil => cases h; rfl
  | cons p rest ih =>
      obtain ⟨tn, ts⟩ := p
      simp only [upsertAll] at h
      cases h1 : upsertList now sd tn ts rows with
      | error e => rw [h1] at h; cases h
      | ok rowsMid =>
          rw [h1] at h
          simp only [okBind] at h
          rw [ih rowsMid h (fun p2 hp2 t2 ht2 =>
            hk p2 (List.mem_cons_of_mem _ hp2) t2 ht2)]
          exact upsertList_findRow_ne now sd tn ts rows rowsMid h1 k
            (fun t ht => hk (tn, ts) (List.mem_cons_self _ rest) t ht)

theorem seenKeys_cons (p : String × List Val) (rest : List (String × List Val)) :
    seenKeys (p :: rest) =
      p.2.filterMap (fun t => upsertKey p.1 t) ++ seenKeys rest := by
  simp [seenKeys]

theorem upsertList_seen_Q (Q : TrainRow → Prop) (now : Nat)
    (sd : Option (List (String × Val))) (tn : String) (ts : List Val)
    (rows rows2 : List TrainRow)
    (h : upsertList now sd tn ts rows = .ok rows2)
    (hQe : ∀ t ∈ ts, ∀ doc : List (String × Val), t = .obj doc →
      ∀ r r2, evolveOne now sd doc r = .ok r2 → Q r2)
    (hQn : ∀ t ∈ ts, ∀ doc : List (String × Val), t = .obj doc →
      ∀ r2, newRow now sd tn doc = .ok r2 → Q r2)
    (k : String × String)
    (hk : k ∈ ts.filterMap (fun t => upsertKey tn t)) :
    ∀ r, findRowL rows2 k = some r → Q r := by
  induction ts generalizing rows with
  | nil => cases hk
  | cons t rest ih =>
      simp only [upsertList] at h
      cases h1 : upsertOne now sd tn t rows with
      | error e => rw [h1] at h; cases h
      | ok rowsMid =>
          rw [h1] at h
          simp only [okBind] at h
          by_cases hkr : k ∈ rest.filterMap (fun t => upsertKey tn t)
          · exact ih rowsMid h
              (fun t2 ht2 => hQe t2 (List.mem_cons_of_mem t ht2))
              (fun t2 ht2 => hQn t2 (List.mem_cons_of_mem t ht2)) hkr
          · have hhead : upsertKey tn t = some k := by
              rcases List.mem_filterMap.mp hk with ⟨t2, ht2, hk2⟩
              cases ht2 with
              | head => exact hk2
              | tail _ hmem =>
                  exact absurd (List.mem_filterMap.mpr ⟨t2, hmem, hk2⟩) hkr
            intro r hfind
            rw [upsertList_findRow_ne now sd tn rest rowsMid rows2 h k
              (fun t2 ht2 hc =>
                hkr (List.mem_filterMap.mpr ⟨t2, ht2, hc⟩))] at hfind
            cases t with
            | obj doc =>
                have hkval : k = (tn, pyStr (jgetD doc "id" (.str ""))) := by
                  simp only [upsertKey] at hhead
                  injection hhead with h2
                  exact h2.symm
                refine updFirst_findRow_self Q now sd tn doc
                  (pyStr (jgetD doc "id" (.str ""))) rows rowsMid h1 rfl
                  (hQe (.obj doc) (List.mem_cons_self _ rest) doc rfl)
                  (hQn (.obj doc) (List.mem_cons_self _ rest) doc rfl) r ?_
                rw [← hkval]
                exact hfind
            | null => cases h1
            | bool b => cases h1
            | num n => cases h1
            | str s2 => cases h1
            | date d => cases h1
            | arr xs => cases h1

theorem upsertAll_seen_Q (Q : TrainRow → Prop) (now : Nat)
    (sd : Option (List (String × Val))) (td : List (String × List Val))
    (rows rows2 : List TrainRow) (h : upsertAll now sd td rows = .ok rows2)
    (hQe : ∀ p ∈ td, ∀ t ∈ p.2, ∀ doc : List (String × Val), t = .obj doc →
      ∀ r r2, evolveOne now sd doc r = .ok r2 → Q r2)
    (hQn : ∀ p ∈ td, ∀ t ∈ p.2, ∀ doc : List (String × Val), t = .obj doc →
      ∀ r2, newRow now sd p.1 doc = .ok r2 → Q r2)
    (k : String × String) (hk : k ∈ seenKeys td) :
    ∀ r, findRowL rows2 k = some r → Q r := by
  induction td generalizing rows with
  | nil => cases hk
  | cons p rest ih =>
      obtain ⟨tn, ts⟩ := p
      simp only [upsertAll] at h
      cases h1 : upsertList now sd tn ts rows with
      | error e => rw [h1] at h; cases h
      | ok rowsMid =>
          rw [h1] at h
          simp only [okBind] at h
          by_cases hkr : k ∈ seenKeys rest
          · exact ih rowsMid h
              (fun p2 hp2 => hQe p2 (List.mem_cons_of_mem _ hp2))
              (fun p2 hp2 => hQn p2 (List.mem_cons_of_mem _ hp2)) hkr
          · have hkh : k ∈ ts.filterMap (fun t => upsertKey tn t) := by
              rw [seenKeys_cons] at hk
              rcases List.mem_append.mp hk with h2 | h2
              · exact h2
              · exact absurd h2 hkr
            intro r hfind
            rw [upsertAll_findRow_ne now sd rest rowsMid rows2 h k
              (fun p2 hp2 t2 ht2 hc =>
                hkr (mem_seenKeys rest p2 t2 k hp2 ht2 hc))] at hfind
            exact upsertList_seen_Q Q now sd tn ts rows rowsMid h1
              (fun t ht => hQe (tn, ts) (List.mem_cons_self _ rest) t ht)
              (fun t ht => hQn (tn, ts) (List.mem_cons_self _ rest) t ht)
              k hkh r hfind

theorem sweep_findRow_seen (now : Nat) (seen : List (String × String))
    (rows : List TrainRow) (k : String × String) (hk : k ∈ seen) :
    findRowL (sweep now seen rows) k = findRowL rows k := by
  induction rows with
  | nil => rfl
  | cons r rest ih =>
      have hkey : rowKey (if inActiveQuery r ∧ rowKey r ∉ seen then
          markCompleted now r else r) = rowKey r := by
        by_cases hc : inActiveQuery r ∧ rowKey r ∉ seen
        · rw [if_pos hc, markCompleted_rowKey]
        · rw [if_neg hc]
      simp only [sweep, List.map, findRowL, List.find?]
      rw [hkey]
      cases hpr : decide (rowKey r = k) with
      | true =>
          have hcf : ¬(inActiveQuery r ∧ rowKey r ∉ seen) := fun hc =>
            hc.2 (by rw [of_decide_eq_true hpr]; exact hk)
          rw [if_neg hcf]
      | false => exact ih

/-! ### C2: agreement of the two state representations -/

/-- Agreement between the `train_state` column (read as `""` when NULL) and
the string `state` field embedded in the `data` blob (read as `""` when
absent): the two projections of the lifecycle state coincide. -/
def agreesStates (r : TrainRow) : Prop :=
  r.train_state.getD "" = (jsonStateText r.data).getD ""

/-- The snapshot's `state` field is absent, `null` or a string — true for
everything the feed parser can produce. -/
def stateFieldOkB (doc : List (String × Val)) : Bool :=
  match jget doc "state" with
  | none => true
  | some .null => true
  | some (.str _) => true
  | some _ => false

def snapStateOkB (t : Val) : Bool :=
  match t with
  | .obj doc => stateFieldOkB doc
  | _ => true

theorem agree_of_evolve (now : Nat) (sd : Option (List (String × Val)))
    (doc : List (String × Val)) (r r2 : TrainRow)
    (hok : stateFieldOkB doc = true) (hev : evolveOne now sd doc r = .ok r2) :
    agreesStates r2 := by
  cases hrel : relevantStations sd doc with
  | error e => unfold evolveOne at hev; rw [hrel] at hev; cases hev
  | ok rel =>
      cases hser : serializeTrain doc with
      | error e =>
          unfold evolveOne at hev
          rw [hrel] at hev
          simp only [okBind] at hev
          rw [hser] at hev
          cases hev
      | ok ser =>
          rw [evolveOne_eq now sd doc r rel ser hrel hser] at hev
          injection hev with h2
          rw [← h2]
          unfold agreesStates pyGetState jsonStateText
          simp only
          rw [serializeTrain_state doc ser hser]
          unfold stateFieldOkB at hok
          cases hst : jget doc "state" with
          | none => rfl
          | some v =>
              rw [hst] at hok
              cases v with
              | null => rfl
              | str s2 => rfl
              | bool b => cases hok
              | num n => cases hok
              | date d => cases hok
              | arr xs => cases hok
              | obj fs => cases hok

theorem agree_of_new (now : Nat) (sd : Option (List (String × Val)))
    (tn : String) (doc : List (String × Val)) (r2 : TrainRow)
    (hok : stateFieldOkB doc = true) (hnr : newRow now sd tn doc = .ok r2) :
    agreesStates r2 := by
  cases hrel : relevantStations sd doc with
  | error e => unfold newRow at hnr; rw [hrel] at hnr; cases hnr
  | ok rel =>
      cases hser : serializeTrain doc with
      | error e =>
          unfold newRow at hnr
          rw [hrel] at hnr
          simp only [okBind] at hnr
          rw [hser] at hnr
          cases hnr
      | ok ser =>
          rw [newRow_eq now sd tn doc rel ser hrel hser] at hnr
          injection hnr with h2
          rw [← h2]
          unfold agreesStates pyGetState jsonStateText
          simp only
          rw [serializeTrain_state doc ser hser]
          unfold stateFieldOkB at hok
          cases hst : jget doc "state" with
          | none => rfl
          | some v =>
              rw [hst] at hok
              cases v with
              | null => rfl
              | str s2 => rfl
              | bool b => cases hok
              | num n => cases hok
              | date d => cases hok
              | arr xs => cases hok
              | obj fs => cases hok

theorem agree_markCompleted (now : Nat) (r : TrainRow)
    (hobj : isNonemptyObj r.data = true) :
    agreesStates (markCompleted now r) := by
  cases hd : r.data with
  | none => rw [hd] at hobj; cases hobj
  | some v =>
      cases v with
      | obj fs =>
          cases fs with
          | nil => rw [hd] at hobj; cases hobj
          | cons f rest =>
              unfold agreesStates
              rw [markCompleted_state, markCompleted_dataState now r _ hd (by simp)]
      | null => rw [hd] at hobj; cases hobj
      | bool b => rw [hd] at hobj; cases hobj
      | num n => rw [hd] at hobj; cases hobj
      | str s2 => rw [hd] at hobj; cases hobj
      | date d => rw [hd] at hobj; cases hobj
      | arr xs => rw [hd] at hobj; cases hobj

/-- C2 amended: after a successful cycle the two representations agree for
every row whose key was seen this cycle (provided its snapshot's `state` is
a string, `null` or absent — the only shapes the feed produces), and for
every previously-active unseen row whose `data` blob is a non-empty JSON
object (the sweep repairs both); rows the cycle does not touch (neither
seen, nor matching the Active/Predeparture query) can retain pre-existing
drift, and a swept row with an empty/null/non-object blob gets only its
column repaired. -/
theorem reconcile_repairs_drift (now : Nat) (td : List (String × List Val))
    (sd : Option (List (String × Val))) (db db2 : DBState)
    (hrun : runUpdateTrains now td sd db = .ok db2)
    (hstates : ∀ p ∈ td, ∀ t ∈ p.2, snapStateOkB t = true) :
    (∀ k ∈ seenKeys td, ∀ r, findRowL db2.trains k = some r →
      agreesStates r) ∧
    (∀ i r, db.trains.get? i = some r → inActiveQuery r →
      rowKey r ∉ seenKeys td → isNonemptyObj r.data = true →
      db2.trains.get? i = some (markCompleted now r) ∧
        agreesStates (markCompleted now r)) := by
  unfold runUpdateTrains at hrun
  cases hup : upsertAll now sd td db.trains with
  | error e => rw [hup] at hrun; cases hrun
  | ok trains1 =>
      rw [hup] at hrun
      simp only [okBind] at hrun
      cases hrun
      constructor
      · intro k hk r hfind
        rw [sweep_findRow_seen now (seenKeys td) trains1 k hk] at hfind
        refine upsertAll_seen_Q agreesStates now sd td db.trains trains1 hup
          ?_ ?_ k hk r hfind
        · intro p hp t ht doc hdoc r0 r2 hev
          refine agree_of_evolve now sd doc r0 r2 ?_ hev
          have := hstates p hp t ht
          rw [hdoc] at this
          exact this
        · intro p hp t ht doc hdoc r2 hnr
          refine agree_of_new now sd p.1 doc r2 ?_ hnr
          have := hstates p hp t ht
          rw [hdoc] at this
          exact this
      · intro i r hi hact hunseen hobj
        have h1 : trains1.get? i = some r :=
          upsertAll_get_unseen now sd td db.trains trains1 hup i r hi hunseen
        constructor
        · rw [sweep_get, h1]
          simp only [Option.map]
          rw [if_pos ⟨hact, hunseen⟩]
        · exact agree_markCompleted now r hobj

def rowC2 : TrainRow :=
  { train_number := "1", train_id := "9", route_name := .str "Acela"
    departure_date := none, train_state := some "Completed"
    stations_snapshot := none, data := some (.obj [("state", .str "Foo")])
    updated_at := 0 }

def dbC2 : DBState := ⟨[rowC2], [], []⟩

/-- Counterexample to C2 as stated: a successful cycle (the run is `ok`)
leaves the untouched row `("1","9")` with column state `"Completed"` but
embedded state `"Foo"` — the invariant does not hold for every persisted
entity, only for the rows the cycle touches. -/
theorem state_agreement_counterexample :
    exceptOk (runUpdateTrains 5 tdC1 none dbC2) = true ∧
      (update_trains_in_db 5 tdC1 none dbC2).trains.map
        (fun r => (rowKey r, r.train_state, jsonStateText r.data)) =
      [(("1", "9"), some "Completed", some "Foo"),
       (("2", "7"), some "", none)] := by
  constructor
  · decide
  · decide

/-- The post-state of the C6/C2 witness cycle. -/
def dbC6After : DBState :=
  ⟨[rowC6change], [], [⟨"last_train_update", isoNow 5, 5⟩]⟩

/-- Witness for the amended C2: the row upserted for the seen key
`("1","9")` agrees after the cycle. -/
theorem reconcile_repairs_drift_witness : agreesStates rowC6change :=
  (reconcile_repairs_drift 5 tdC6 none dbC6 dbC6After (by decide)
    (by decide)).1 ("1", "9") (by decide) rowC6change (by decide)

/-! ### C9: the feed parser emits no `state` field, so the worker stores `""` -/

/-- The shape every snapshot `parseFeature` can produce: a six-key object
with neither a `state` nor a `departure_date` key. -/
def snapNoState (t : Val) : Prop :=
  ∃ doc : List (String × Val), t = .obj doc ∧ jget doc "state" = none ∧
    jget doc "departure_date" = none

theorem jget_snapFields_state (routeName : Val) (trainNum : String)
    (idVal : Val) (lastUpdate : Option DateV) (sts : List (String × Val))
    (curTz : String) :
    jget (snapFields routeName trainNum idVal lastUpdate sts curTz) "state"
      = none ∧
    jget (snapFields routeName trainNum idVal lastUpdate sts curTz)
      "departure_date" = none := by
  constructor <;> rfl

theorem parseFeature_shape (fmt1Ok fmt2Ok : String → Bool) (ft : Feature)
    (v : Val) (h : parseFeature fmt1Ok fmt2Ok ft = .ok v) : snapNoState v := by
  unfold parseFeature at h
  cases hs : parseFeatureStations fmt1Ok fmt2Ok ft with
  | error e => rw [hs] at h; cases h
  | ok sts =>
      rw [hs] at h
      simp only [okBind] at h
      cases hcz : featureCurTz ft sts with
      | error e => rw [hcz] at h; cases h
      | ok curTz =>
          rw [hcz] at h
          simp only [okBind] at h
          cases hld : parse_date fmt1Ok fmt2Ok (ft.lastValTS.map Val.str)
              (some (.str curTz)) with
          | error e => rw [hld] at h; cases h
          | ok lu =>
              rw [hld] at h
              simp only [okBind] at h
              cases hck : checkTZ curTz with
              | error e => rw [hck] at h; cases h
              | ok u =>
                  rw [hck] at h
                  simp only [okBind] at h
                  injection h with h2
                  exact ⟨_, h2.symm,
                    (jget_snapFields_state ft.routeName ft.trainNum ft.idVal
                      lu sts curTz).1,
                    (jget_snapFields_state ft.routeName ft.trainNum ft.idVal
                      lu sts curTz).2⟩

theorem groupAdd_all (P : Val → Prop) (acc : List (String × List Val))
    (k : String) (v : Val) (hacc : ∀ p ∈ acc, ∀ w ∈ p.2, P w) (hv : P v) :
    ∀ p ∈ groupAdd acc k v, ∀ w ∈ p.2, P w := by
  induction acc with
  | nil =>
      intro p hp w hw
      simp only [groupAdd, List.mem_singleton] at hp
      subst hp
      simp only [List.mem_singleton] at hw
      subst hw
      exact hv
  | cons q rest ih =>
      obtain ⟨kk, vs⟩ := q
      intro p hp w hw
      simp only [groupAdd] at hp
      by_cases hk : kk = k
      · rw [if_pos hk] at hp
        cases hp with
        | head =>
            rcases List.mem_append.mp hw with h2 | h2
            · exact hacc (kk, vs) (List.mem_cons_self _ rest) w h2
            · rw [List.mem_singleton.mp h2]
              exact hv
        | tail _ h2 => exact hacc p (List.mem_cons_of_mem _ h2) w hw
      · rw [if_neg hk] at hp
        cases hp with
        | head => exact hacc (kk, vs) (List.mem_cons_self _ rest) w hw
        | tail _ h2 =>
            exact ih (fun p2 hp2 => hacc p2 (List.mem_cons_of_mem _ hp2))
              p h2 w hw

theorem trainsLoop_all (P : Val → Prop) (fmt1Ok fmt2Ok : String → Bool)
    (l : List Feature) (acc out : List (String × List Val))
    (hl : ∀ (ft : Feature) (v : Val), parseFeature fmt1Ok fmt2Ok ft = .ok v → P v)
    (hacc : ∀ p ∈ acc, ∀ w ∈ p.2, P w)
    (h : trainsLoop fmt1Ok fmt2Ok l acc = .ok out) :
    ∀ p ∈ out, ∀ w ∈ p.2, P w := by
  induction l generalizing acc with
  | nil => cases h; exact hacc
  | cons ft rest ih =>
      simp only [trainsLoop] at h
      cases hft : parseFeature fmt1Ok fmt2Ok ft with
      | error e => rw [hft] at h; cases h
      | ok snap =>
          rw [hft] at h
          simp only [okBind] at h
          exact ih (groupAdd acc ft.trainNum snap)
            (groupAdd_all P acc ft.trainNum snap hacc (hl ft snap hft)) h

theorem q9_of_evolve (now : Nat) (sd : Option (List (String × Val)))
    (doc : List (String × Val)) (r r2 : TrainRow)
    (hst : jget doc "state" = none) (hev : evolveOne now sd doc r = .ok r2) :
    r2.train_state = some "" ∧
      (∀ fs, r2.data = some (.obj fs) → jget fs "state" = none) := by
  cases hrel : relevantStations sd doc with
  | error e => unfold evolveOne at hev; rw [hrel] at hev; cases hev
  | ok rel =>
      cases hser : serializeTrain doc with
      | error e =>
          unfold evolveOne at hev
          rw [hrel] at hev
          simp only [okBind] at hev
          rw [hser] at hev
          cases hev
      | ok ser =>
          rw [evolveOne_eq now sd doc r rel ser hrel hser] at hev
          injection hev with h2
          rw [← h2]
          refine ⟨?_, ?_⟩
          · show pyGetState doc = some ""
            unfold pyGetState
            rw [hst]
          · intro fs hfs
            simp only at hfs
            injection hfs with h3
            injection h3 with h4
            rw [← h4, serializeTrain_state doc ser hser]
            exact hst

theorem q9_of_new (now : Nat) (sd : Option (List (String × Val)))
    (tn : String) (doc : List (String × Val)) (r2 : TrainRow)
    (hst : jget doc "state" = none) (hnr : newRow now sd tn doc = .ok r2) :
    r2.train_state = some "" ∧
      (∀ fs, r2.data = some (.obj fs) → jget fs "state" = none) := by
  cases hrel : relevantStations sd doc with
  | error e => unfold newRow at hnr; rw [hrel] at hnr; cases hnr
  | ok rel =>
      cases hser : serializeTrain doc with
      | error e =>
          unfold newRow at hnr
          rw [hrel] at hnr
          simp only [okBind] at hnr
          rw [hser] at hnr
          cases hnr
      | ok ser =>
          rw [newRow_eq now sd tn doc rel ser hrel hser] at hnr
          injection hnr with h2
          rw [← h2]
          refine ⟨?_, ?_⟩
          · show pyGetState doc = some ""
            unfold pyGetState
            rw [hst]
          · intro fs hfs
            simp only at hfs
            injection hfs with h3
            injection h3 with h4
            rw [← h4, serializeTrain_state doc ser hser]
            exact hst

/-- C9: every snapshot a successful `parse_trains` produces is an object
with no `state` key (and no `departure_date` key); consequently, in any
reconciliation cycle run on such output, every row upserted for a seen key
ends with `train_state = ""` (never Predeparture/Active/Completed) and a
persisted `data` blob that carries no `state` field either. -/
theorem parse_output_has_no_state (fmt1Ok fmt2Ok : String → Bool)
    (feed : List Feature) (td : List (String × List Val))
    (hp : parse_trains fmt1Ok fmt2Ok feed = .ok td) :
    (∀ p ∈ td, ∀ t ∈ p.2, snapNoState t) ∧
    (∀ (now : Nat) (sd : Option (List (String × Val))) (db db2 : DBState),
      runUpdateTrains now td sd db = .ok db2 →
      ∀ k ∈ seenKeys td, ∀ r, findRowL db2.trains k = some r →
        r.train_state = some "" ∧
          (∀ fs, r.data = some (.obj fs) → jget fs "state" = none)) := by
  have hall : ∀ p ∈ td, ∀ t ∈ p.2, snapNoState t :=
    trainsLoop_all snapNoState fmt1Ok fmt2Ok feed [] td
      (fun ft v hv => parseFeature_shape fmt1Ok fmt2Ok ft v hv)
      (fun p hp2 => absurd hp2 (List.not_mem_nil p)) hp
  refine ⟨hall, ?_⟩
  intro now sd db db2 hrun k hk r hfind
  unfold runUpdateTrains at hrun
  cases hup : upsertAll now sd td db.trains with
  | error e => rw [hup] at hrun; cases hrun
  | ok trains1 =>
      rw [hup] at hrun
      simp only [okBind] at hrun
      cases hrun
      rw [sweep_findRow_seen now (seenKeys td) trains1 k hk] at hfind
      refine upsertAll_seen_Q
        (fun r2 => r2.train_state = some "" ∧
          (∀ fs, r2.data = some (.obj fs) → jget fs "state" = none))
        now sd td db.trains trains1 hup ?_ ?_ k hk r hfind
      · intro p hp2 t ht doc hdoc r0 r2 hev
        rcases hall p hp2 t ht with ⟨doc2, hdoc2, hst, _⟩
        rw [hdoc] at hdoc2
        injection hdoc2 with h3
        rw [← h3] at hst
        exact q9_of_evolve now sd doc r0 r2 hst hev
      · intro p hp2 t ht doc hdoc r2 hnr
        rcases hall p hp2 t ht with ⟨doc2, hdoc2, hst, _⟩
        rw [hdoc] at hdoc2
        injection hdoc2 with h3
        rw [← h3] at hst
        exact q9_of_new now sd p.1 doc r2 hst hnr

/-- The parse output of `[featC7ok]` and the row the worker persists for it. -/
def snapC9 : Val :=
  .obj
    [("route_name", .str "Acela"), ("train_number", .str "123"),
     ("id", .str "9"), ("last_update", .null),
     ("stations", .obj [("AAA", stopEntryAAA)]),
     ("last_fetched", .date (.now "E"))]

def tdC9 : List (String × List Val) := [("123", [snapC9])]

def rowC9 : TrainRow :=
  { train_number := "123", train_id := "9", route_name := .str "Acela"
    departure_date := none, train_state := some ""
    stations_snapshot := none
    data := some (.obj
      [("route_name", .str "Acela"), ("train_number", .str "123"),
       ("id", .str "9"), ("last_update", .null),
       ("stations", .obj [("AAA", stopEntryAAA)]),
       ("last_fetched", .str "now(E)")])
    updated_at := 5 }

def dbC9After : DBState :=
  ⟨[rowC9], [], [⟨"last_train_update", isoNow 5, 5⟩]⟩

/-- Witness for C9: at the concrete feed `[featC7ok]`, the persisted row for
the seen key `("123","9")` has the empty string as its `train_state`. -/
theorem parse_output_has_no_state_witness : rowC9.train_state = some "" :=
  ((parse_output_has_no_state alwaysOkFmt alwaysOkFmt [featC7ok] tdC9
    (by decide)).2 5 none ⟨[], [], []⟩ dbC9After (by decide)
    ("123", "9") (by decide) rowC9 (by decide)).1

/-! ### C8: idempotence of reconciliation

Running `update_trains_in_db` a second time with the identical snapshot set
changes nothing in the `trains` table except `updated_at`. The proof works
on a flattened upsert list and characterizes, per key, the row the loop
leaves behind: the last writer wins, and re-running the same write sequence
reproduces the same row (up to `updated_at`). -/

/-- A train row with its `updated_at` forgotten. -/
def stripRow (r : TrainRow) : TrainRow := { r with updated_at := 0 }

theorem stripRow_fields (a b : TrainRow)
    (h1 : a.train_number = b.train_number) (h2 : a.train_id = b.train_id)
    (h3 : a.route_name = b.route_name)
    (h4 : a.departure_date = b.departure_date)
    (h5 : a.train_state = b.train_state)
    (h6 : a.stations_snapshot = b.stations_snapshot)
    (h7 : a.data = b.data) : stripRow a = stripRow b := by
  cases a
  cases b
  simp only at h1 h2 h3 h4 h5 h6 h7
  simp [stripRow, h1, h2, h3, h4, h5, h6, h7]

/-- Total versions of the two fallible computations inside an upsert (they
agree with the fallible ones whenever those succeed). -/
def relD (sd : Option (List (String × Val))) (doc : List (String × Val)) :
    Option Val :=
  match relevantStations sd doc with
  | .ok v => v
  | .error _ => none

def serD (doc : List (String × Val)) : List (String × Val) :=
  match serializeTrain doc with
  | .ok v => v
  | .error _ => []

/-- The total mirror of `evolveOne`. -/
def evolveT (now : Nat) (sd : Option (List (String × Val)))
    (doc : List (String × Val)) (r : TrainRow) : TrainRow :=
  { r with
    route_name := jgetD doc "route_name" (.str "")
    departure_date := jget doc "departure_date"
    data := some (.obj (serD doc))
    updated_at := now
    stations_snapshot :=
      if pyGetState doc ≠ r.train_state then relD sd doc
      else r.stations_snapshot
    train_state := pyGetState doc }

/-- The total mirror of `newRow`. -/
def newT (now : Nat) (sd : Option (List (String × Val))) (tn : String)
    (doc : List (String × Val)) : TrainRow :=
  { train_number := tn
    train_id := pyStr (jgetD doc "id" (.str ""))
    route_name := jgetD doc "route_name" (.str "")
    departure_date := jget doc "departure_date"
    train_state := pyGetState doc
    stations_snapshot := relD sd doc
    data := some (.obj (serD doc))
    updated_at := now }

theorem evolveOne_ok_imp (now : Nat) (sd : Option (List (String × Val)))
    (doc : List (String × Val)) (r r2 : TrainRow)
    (h : evolveOne now sd doc r = .ok r2) : r2 = evolveT now sd doc r := by
  cases hrel : relevantStations sd doc with
  | error e => unfold evolveOne at h; rw [hrel] at h; cases h
  | ok rel =>
      cases hser : serializeTrain doc with
      | error e =>
          unfold evolveOne at h
          rw [hrel] at h
          simp only [okBind] at h
          rw [hser] at h
          cases h
      | ok ser =>
          rw [evolveOne_eq now sd doc r rel ser hrel hser] at h
          injection h with h2
          rw [← h2]
          unfold evolveT relD serD
          rw [hrel, hser]

theorem newRow_ok_imp (now : Nat) (sd : Option (List (String × Val)))
    (tn : String) (doc : List (String × Val)) (r2 : TrainRow)
    (h : newRow now sd tn doc = .ok r2) : r2 = newT now sd tn doc := by
  cases hrel : relevantStations sd doc with
  | error e => unfold newRow at h; rw [hrel] at h; cases h
  | ok rel =>
      cases hser : serializeTrain doc with
      | error e =>
          unfold newRow at h
          rw [hrel] at h
          simp only [okBind] at h
          rw [hser] at h
          cases h
      | ok ser =>
          rw [newRow_eq now sd tn doc rel ser hrel hser] at h
          injection h with h2
          rw [← h2]
          unfold newT relD serD
          rw [hrel, hser]

/-- The snapshot list flattened to `(train_number, snapshot)` pairs, in
processing order. -/
def flatTd (td : List (String × List Val)) : List (String × Val) :=
  (td.map (fun p => p.2.map (fun t => (p.1, t)))).flatten

/-- The upsert loop over the flattened list. -/
def foldFlat (now : Nat) (sd : Option (List (String × Val))) :
    List (String × Val) → List TrainRow → Except Unit (List TrainRow)
  | [], rows => .ok rows
  | q :: rest, rows => do
      let rows2 ← upsertOne now sd q.1 q.2 rows
      foldFlat now sd rest rows2

theorem foldFlat_append (now : Nat) (sd : Option (List (String × Val)))
    (l1 l2 : List (String × Val)) (rows : List TrainRow) :
    foldFlat now sd (l1 ++ l2) rows = (do
      let rows2 ← foldFlat now sd l1 rows
      foldFlat now sd l2 rows2) := by
  induction l1 generalizing rows with
  | nil => rfl
  | cons q rest ih =>
      simp only [List.cons_append, foldFlat]
      cases upsertOne now sd q.1 q.2 rows with
      | error e => rfl
      | ok rowsMid =>
          simp only [okBind]
          exact ih rowsMid

theorem upsertList_eq_foldFlat (now : Nat) (sd : Option (List (String × Val)))
    (tn : String) (ts : List Val) (rows : List TrainRow) :
    upsertList now sd tn ts rows =
      foldFlat now sd (ts.map (fun t => (tn, t))) rows := by
  induction ts generalizing rows with
  | nil => rfl
  | cons t rest ih =>
      simp only [upsertList, List.map, foldFlat]
      cases upsertOne now sd tn t rows with
      | error e => rfl
      | ok rowsMid =>
          simp only [okBind]
          exact ih rowsMid

theorem upsertAll_eq_foldFlat (now : Nat) (sd : Option (List (String × Val)))
    (td : List (String × List Val)) (rows : List TrainRow) :
    upsertAll now sd td rows = foldFlat now sd (flatTd td) rows := by
  induction td generalizing rows with
  | nil => rfl
  | cons p rest ih =>
      obtain ⟨tn, ts⟩ := p
      simp only [upsertAll, flatTd, List.map, List.flatten]
      rw [foldFlat_append, upsertList_eq_foldFlat]
      cases foldFlat now sd (ts.map (fun t => (tn, t))) rows with
      | error e => rfl
      | ok rowsMid =>
          simp only [okBind]
          exact ih rowsMid

def flatKeys (flat : List (String × Val)) : List (String × String) :=
  flat.filterMap (fun q => upsertKey q.1 q.2)

theorem seenKeys_eq_flatKeys (td : List (String × List Val)) :
    seenKeys td = flatKeys (flatTd td) := by
  induction td with
  | nil => rfl
  | cons p rest ih =>
      obtain ⟨tn, ts⟩ := p
      rw [seenKeys_cons, ih]
      simp only [flatTd, flatKeys, List.map, List.flatten, List.filterMap_append]
      congr 1
      rw [List.filterMap_map]
      rfl

/-! #### Index-level behavior of one upsert -/

theorem updFirst_keys (now : Nat) (sd : Option (List (String × Val)))
    (tn : String) (doc : List (String × Val)) (tid : String)
    (rows rows2 : List TrainRow)
    (h : updFirst now sd tn doc tid rows = .ok rows2) :
    ∀ j rj, rows.get? j = some rj →
      ∃ rj2, rows2.get? j = some rj2 ∧ rowKey rj2 = rowKey rj := by
  induction rows generalizing rows2 with
  | nil => intro j rj hj; cases hj
  | cons r rest ih =>
      by_cases hcond : r.train_number = tn ∧ r.train_id = tid
      · simp only [updFirst, if_pos hcond] at h
        cases hev : evolveOne now sd doc r with
        | error e => rw [hev] at h; cases h
        | ok r2 =>
            rw [hev] at h
            simp only [okBind] at h
            cases h
            intro j rj hj
            cases j with
            | zero =>
                cases hj
                exact ⟨r2, rfl, evolveOne_rowKey now sd doc r r2 hev⟩
            | succ j2 => exact ⟨rj, hj, rfl⟩
      · simp only [updFirst, if_neg hcond] at h
        cases hrec : updFirst now sd tn doc tid rest with
        | error e => rw [hrec] at h; cases h
        | ok rest2 =>
            rw [hrec] at h
            simp only [okBind] at h
            cases h
            intro j rj hj
            cases j with
            | zero => cases hj; exact ⟨r, rfl, rfl⟩
            | succ j2 => exact ih rest2 hrec j2 rj hj

theorem updFirst_get_first (now : Nat) (sd : Option (List (String × Val)))
    (tn : String) (doc : List (String × Val)) (tid : String)
    (rows rows2 : List TrainRow) (i : Nat) (r : TrainRow)
    (h : updFirst now sd tn doc tid rows = .ok rows2)
    (hi : rows.get? i = some r) (hkey : rowKey r = (tn, tid))
    (hfirst : ∀ j rj, j < i → rows.get? j = some rj →
      rowKey rj ≠ (tn, tid)) :
    rows2.get? i = some (evolveT now sd doc r) ∧
      ∀ j, j ≠ i → rows2.get? j = rows.get? j := by
  induction rows generalizing rows2 i with
  | nil => cases hi
  | cons r0 rest ih =>
      by_cases hcond : r0.train_number = tn ∧ r0.train_id = tid
      · simp only [updFirst, if_pos hcond] at h
        cases hev : evolveOne now sd doc r0 with
        | error e => rw [hev] at h; cases h
        | ok r2 =>
            rw [hev] at h
            simp only [okBind] at h
            cases h
            cases i with
            | zero =>
                cases hi
                refine ⟨?_, ?_⟩
                · rw [evolveOne_ok_imp now sd doc r r2 hev]
                  rfl
                · intro j hj
                  cases j with
                  | zero => exact absurd rfl hj
                  | succ j2 => rfl
            | succ i2 =>
                exact absurd (show rowKey r0 = (tn, tid) by
                    simp [rowKey, hcond.1, hcond.2])
                  (hfirst 0 r0 (Nat.succ_pos i2) rfl)
      · simp only [updFirst, if_neg hcond] at h
        cases hrec : updFirst now sd tn doc tid rest with
        | error e => rw [hrec] at h; cases h
        | ok rest2 =>
            rw [hrec] at h
            simp only [okBind] at h
            cases h
            cases i with
            | zero =>
                cases hi
                exact absurd hkey (by
                  intro h2
                  exact hcond ⟨congrArg Prod.fst h2, congrArg Prod.snd h2⟩)
            | succ i2 =>
                have hres := ih rest2 i2 hrec hi
                  (fun j rj hj hjg =>
                    hfirst (j + 1) rj (Nat.succ_lt_succ hj) hjg)
                refine ⟨hres.1, ?_⟩
                intro j hj
                cases j with
                | zero => rfl
                | succ j2 =>
                    exact hres.2 j2 (fun h2 => hj (congrArg Nat.succ h2))

theorem updFirst_get_later (now : Nat) (sd : Option (List (String × Val)))
    (tn : String) (doc : List (String × Val)) (tid : String)
    (rows rows2 : List TrainRow) (j i : Nat) (rj r : TrainRow)
    (h : updFirst now sd tn doc tid rows = .ok rows2)
    (hj : rows.get? j = some rj) (hkj : rowKey rj = (tn, tid)) (hji : j < i)
    (hi : rows.get? i = some r) : rows2.get? i = some r := by
  induction rows generalizing rows2 j i with
  | nil => cases hi
  | cons r0 rest ih =>
      by_cases hcond : r0.train_number = tn ∧ r0.train_id = tid
      · simp only [updFirst, if_pos hcond] at h
        cases hev : evolveOne now sd doc r0 with
        | error e => rw [hev] at h; cases h
        | ok r2 =>
            rw [hev] at h
            simp only [okBind] at h
            cases h
            cases i with
            | zero => cases hji
            | succ i2 => exact hi
      · simp only [updFirst, if_neg hcond] at h
        cases hrec : updFirst now sd tn doc tid rest with
        | error e => rw [hrec] at h; cases h
        | ok rest2 =>
            rw [hrec] at h
            simp only [okBind] at h
            cases h
            cases j with
            | zero =>
                cases hj
                exact absurd hkj (by
                  intro h2
                  exact hcond ⟨congrArg Prod.fst h2, congrArg Prod.snd h2⟩)
            | succ j2 =>
                cases i with
                | zero => cases hji
                | succ i2 =>
                    exact ih rest2 j2 i2 hrec hj (Nat.lt_of_succ_lt_succ hji) hi

theorem findRowL_none_iff (rows : List TrainRow) (k : String × String) :
    findRowL rows k = none ↔
      ∀ j rj, rows.get? j = some rj → rowKey rj ≠ k := by
  induction rows with
  | nil =>
      constructor
      · intro _ j rj hj; cases hj
      · intro _; rfl
  | cons r rest ih =>
      simp only [findRowL, List.find?]
      cases hpr : decide (rowKey r = k) with
      | true =>
          simp only []
          constructor
          · intro h2; cases h2
          · intro h2
            exact absurd (of_decide_eq_true hpr) (h2 0 r rfl)
      | false =>
          simp only []
          rw [show (List.find? (fun r => decide (rowKey r = k)) rest = none) ↔
              (findRowL rest k = none) from Iff.rfl, ih]
          constructor
          · intro h2 j rj hj
            cases j with
            | zero => cases hj; exact of_decide_eq_false hpr
            | succ j2 => exact h2 j2 rj hj
          · intro h2 j rj hj
            exact h2 (j + 1) rj hj

theorem findRowL_of_first (rows : List TrainRow) (k : String × String)
    (i : Nat) (r : TrainRow) (hi : rows.get? i = some r)
    (hkey : rowKey r = k)
    (hfirst : ∀ j rj, j < i → rows.get? j = some rj → rowKey rj ≠ k) :
    findRowL rows k = some r := by
  induction rows generalizing i with
  | nil => cases hi
  | cons r0 rest ih =>
      simp only [findRowL, List.find?]
      cases i with
      | zero =>
          cases hi
          rw [show decide (rowKey r = k) = true from decide_eq_true hkey]
      | succ i2 =>
          have h0 : rowKey r0 ≠ k := hfirst 0 r0 (Nat.succ_pos i2) rfl
          rw [show decide (rowKey r0 = k) = false from decide_eq_false h0]
          exact ih i2 hi
            (fun j rj hj hjg => hfirst (j + 1) rj (Nat.succ_lt_succ hj) hjg)

theorem updFirst_append (now : Nat) (sd : Option (List (String × Val)))
    (tn : String) (doc : List (String × Val)) (tid : String)
    (rows rows2 : List TrainRow)
    (h : updFirst now sd tn doc tid rows = .ok rows2)
    (habsent : ∀ j rj, rows.get? j = some rj → rowKey rj ≠ (tn, tid)) :
    rows2 = rows ++ [newT now sd tn doc] := by
  induction rows generalizing rows2 with
  | nil =>
      simp only [updFirst] at h
      cases hnr : newRow now sd tn doc with
      | error e => rw [hnr] at h; cases h
      | ok nr =>
          rw [hnr] at h
          simp only [okBind] at h
          cases h
          rw [newRow_ok_imp now sd tn doc nr hnr]
          rfl
  | cons r0 rest ih =>
      by_cases hcond : r0.train_number = tn ∧ r0.train_id = tid
      · exact absurd (show rowKey r0 = (tn, tid) by
          simp [rowKey, hcond.1, hcond.2]) (habsent 0 r0 rfl)
      · simp only [updFirst, if_neg hcond] at h
        cases hrec : updFirst now sd tn doc tid rest with
        | error e => rw [hrec] at h; cases h
        | ok rest2 =>
            rw [hrec] at h
            simp only [okBind] at h
            cases h
            rw [ih rest2 hrec (fun j rj hj => habsent (j + 1) rj hj)]
            rfl

theorem updFirst_findRow_update (now : Nat) (sd : Option (List (String × Val)))
    (tn : String) (doc : List (String × Val)) (tid : String)
    (rows rows2 : List TrainRow) (r0 : TrainRow)
    (h : updFirst now sd tn doc tid rows = .ok rows2)
    (hfind : findRowL rows (tn, tid) = some r0) :
    findRowL rows2 (tn, tid) = some (evolveT now sd doc r0) := by
  induction rows generalizing rows2 with
  | nil => cases hfind
  | cons r1 rest ih =>
      by_cases hcond : r1.train_number = tn ∧ r1.train_id = tid
      · have hk1 : rowKey r1 = (tn, tid) := by
          simp [rowKey, hcond.1, hcond.2]
        simp only [updFirst, if_pos hcond] at h
        cases hev : evolveOne now sd doc r1 with
        | error e => rw [hev] at h; cases h
        | ok r2 =>
            rw [hev] at h
            simp only [okBind] at h
            cases h
            simp only [findRowL, List.find?] at hfind ⊢
            rw [show decide (rowKey r1 = (tn, tid)) = true from
              decide_eq_true hk1] at hfind
            injection hfind with hf
            rw [show decide (rowKey r2 = (tn, tid)) = true from
              decide_eq_true (by
                rw [evolveOne_rowKey now sd doc r1 r2 hev, hk1])]
            rw [evolveOne_ok_imp now sd doc r1 r2 hev, hf]
      · have hk1 : rowKey r1 ≠ (tn, tid) := by
          intro h2
          exact hcond ⟨congrArg Prod.fst h2, congrArg Prod.snd h2⟩
        simp only [updFirst, if_neg hcond] at h
        cases hrec : updFirst now sd tn doc tid rest with
        | error e => rw [hrec] at h; cases h
        | ok rest2 =>
            rw [hrec] at h
            simp only [okBind] at h
            cases h
            simp only [findRowL, List.find?] at hfind ⊢
            rw [show decide (rowKey r1 = (tn, tid)) = false from
              decide_eq_false hk1] at hfind ⊢
            exact ih rest2 hrec hfind

theorem updFirst_findRow_isSome (now : Nat) (sd : Option (List (String × Val)))
    (tn : String) (doc : List (String × Val)) (tid : String)
    (rows rows2 : List TrainRow)
    (h : updFirst now sd tn doc tid rows = .ok rows2)
    (htid : tid = pyStr (jgetD doc "id" (.str ""))) :
    ∃ r2, findRowL rows2 (tn, tid) = some r2 := by
  induction rows generalizing rows2 with
  | nil =>
      simp only [updFirst] at h
      cases hnr : newRow now sd tn doc with
      | error e => rw [hnr] at h; cases h
      | ok nr =>
          rw [hnr] at h
          simp only [okBind] at h
          cases h
          refine ⟨nr, ?_⟩
          simp only [findRowL, List.find?]
          rw [show decide (rowKey nr = (tn, tid)) = true from
            decide_eq_true (by
              rw [newRow_rowKey now sd tn doc nr hnr, ← htid])]
  | cons r1 rest ih =>
      by_cases hcond : r1.train_number = tn ∧ r1.train_id = tid
      · simp only [updFirst, if_pos hcond] at h
        cases hev : evolveOne now sd doc r1 with
        | error e => rw [hev] at h; cases h
        | ok r2 =>
            rw [hev] at h
            simp only [okBind] at h
            cases h
            refine ⟨r2, ?_⟩
            simp only [findRowL, List.find?]
            rw [show decide (rowKey r2 = (tn, tid)) = true from
              decide_eq_true (by
                rw [evolveOne_rowKey now sd doc r1 r2 hev]
                simp [rowKey, hcond.1, hcond.2])]
      · simp only [updFirst, if_neg hcond] at h
        cases hrec : updFirst now sd tn doc tid rest with
        | error e => rw [hrec] at h; cases h
        | ok rest2 =>
            rw [hrec] at h
            simp only [okBind] at h
            cases h
            rcases ih rest2 hrec with ⟨r2, hr2⟩
            refine ⟨r2, ?_⟩
            simp only [findRowL, List.find?]
            rw [show decide (rowKey r1 = (tn, tid)) = false from
              decide_eq_false (by
                intro h2
                exact hcond ⟨congrArg Prod.fst h2, congrArg Prod.snd h2⟩)]
            exact hr2

theorem updFirst_length_present (now : Nat) (sd : Option (List (String × Val)))
    (tn : String) (doc : List (String × Val)) (tid : String)
    (rows rows2 : List TrainRow) (r0 : TrainRow)
    (h : updFirst now sd tn doc tid rows = .ok rows2)
    (hfind : findRowL rows (tn, tid) = some r0) :
    rows2.length = rows.length := by
  induction rows generalizing rows2 with
  | nil => cases hfind
  | cons r1 rest ih =>
      by_cases hcond : r1.train_number = tn ∧ r1.train_id = tid
      · simp only [updFirst, if_pos hcond] at h
        cases hev : evolveOne now sd doc r1 with
        | error e => rw [hev] at h; cases h
        | ok r2 =>
            rw [hev] at h
            simp only [okBind] at h
            cases h
            simp
      · simp only [updFirst, if_neg hcond] at h
        cases hrec : updFirst now sd tn doc tid rest with
        | error e => rw [hrec] at h; cases h
        | ok rest2 =>
            rw [hrec] at h
            simp only [okBind] at h
            cases h
            simp only [findRowL, List.find?] at hfind
            rw [show decide (rowKey r1 = (tn, tid)) = false from
              decide_eq_false (by
                intro h2
                exact hcond ⟨congrArg Prod.fst h2, congrArg Prod.snd h2⟩)] at hfind
            simp [ih rest2 hrec hfind]

/-- After `markCompleted`, the JSON state text is gone or `"Completed"`. -/
theorem markCompleted_jsonState (now : Nat) (r : TrainRow) :
    jsonStateText (markCompleted now r).data = none ∨
      jsonStateText (markCompleted now r).data = some "Completed" := by
  cases hd : r.data with
  | none =>
      have hdata : (markCompleted now r).data = r.data := by
        unfold markCompleted
        rw [hd]
        by_cases h : r.train_state = some "Completed" <;> simp [h, hd]
      rw [hdata, hd]
      left
      rfl
  | some v =>
      cases v with
      | obj fs =>
          have hmc : markCompleted now r =
              (if fs ≠ [] ∧ jget fs "state" ≠ some (Val.str "Completed") then
                { r with train_state := some "Completed",
                         data := some (.obj (setKey fs "state" (.str "Completed"))),
                         updated_at := now }
              else if r.train_state ≠ some "Completed" then
                { r with train_state := some "Completed", updated_at := now }
              else r) := by
            unfold markCompleted
            rw [hd]
          rw [hmc]
          by_cases h2 : fs ≠ [] ∧ jget fs "state" ≠ some (Val.str "Completed")
          · rw [if_pos h2]
            right
            simp [jsonStateText, jget_setKey_self]
          · rw [if_neg h2]
            push_neg at h2
            have hdata : (if r.train_state ≠ some "Completed" then
                { r with train_state := some "Completed", updated_at := now }
              else r).data = r.data := by
              by_cases h : r.train_state = some "Completed" <;> simp [h]
            rw [hdata, hd]
            by_cases hfs : fs = []
            · left
              subst hfs
              simp [jsonStateText, jget]
            · right
              simp [jsonStateText, h2 hfs]
      | null =>
          have hdata : (markCompleted now r).data = r.data := by
            unfold markCompleted
            rw [hd]
            by_cases h : r.train_state = some "Completed" <;> simp [h, hd]
          rw [hdata, hd]
          left
          rfl
      | bool b =>
          have hdata : (markCompleted now r).data = r.data := by
            unfold markCompleted
            rw [hd]
            by_cases h : r.train_state = some "Completed" <;> simp [h, hd]
          rw [hdata, hd]
          left
          rfl
      | num n =>
          have hdata : (markCompleted now r).data = r.data := by
            unfold markCompleted
            rw [hd]
            by_cases h : r.train_state = some "Completed" <;> simp [h, hd]
          rw [hdata, hd]
          left
          rfl
      | str s2 =>
          have hdata : (markCompleted now r).data = r.data := by
            unfold markCompleted
            rw [hd]
            by_cases h : r.train_state = some "Completed" <;> simp [h, hd]
          rw [hdata, hd]
          left
          rfl
      | date d =>
          have hdata : (markCompleted now r).data = r.data := by
            unfold markCompleted
            rw [hd]
            by_cases h : r.train_state = some "Completed" <;> simp [h, hd]
          rw [hdata, hd]
          left
          rfl
      | arr xs =>
          have hdata : (markCompleted now r).data = r.data := by
            unfold markCompleted
            rw [hd]
            by_cases h : r.train_state = some "Completed" <;> simp [h, hd]
          rw [hdata, hd]
          left
          rfl

/-- A row marked completed never matches the cleanup query again. -/
theorem markCompleted_inactive (now : Nat) (r : TrainRow) :
    ¬ inActiveQuery (markCompleted now r) := by
  intro hact
  have hstate := markCompleted_state now r
  have hjs := markCompleted_jsonState now r
  rcases hact with h1 | h1 | h1 | h1
  · rw [hstate] at h1
    injection h1 with h2
    exact absurd h2 (by decide)
  · rw [hstate] at h1
    injection h1 with h2
    exact absurd h2 (by decide)
  · rcases hjs with h2 | h2 <;> rw [h2] at h1
    · cases h1
    · injection h1 with h3
      exact absurd h3 (by decide)
  · rcases hjs with h2 | h2 <;> rw [h2] at h1
    · cases h1
    · injection h1 with h3
      exact absurd h3 (by decide)

/-! #### Success of the upsert loop depends only on the snapshots -/

/-- Whether an exceptional computation succeeded. -/
def exOk {α : Type} : Except Unit α → Bool
  | .ok _ => true
  | .error _ => false

/-- Whether one snapshot document upserts without raising: both fallible
computations inside the upsert succeed. -/
def docOk (sd : Option (List (String × Val))) (doc : List (String × Val)) :
    Bool :=
  exOk (relevantStations sd doc) && exOk (serializeTrain doc)

/-- Whether one flattened `(train_number, snapshot)` entry upserts without
raising. -/
def snapOk (sd : Option (List (String × Val))) (q : String × Val) : Bool :=
  match q.2 with
  | .obj doc => docOk sd doc
  | _ => false

theorem evolveOne_exOk (now : Nat) (sd : Option (List (String × Val)))
    (doc : List (String × Val)) (r : TrainRow) :
    exOk (evolveOne now sd doc r) = docOk sd doc := by
  unfold evolveOne docOk
  cases relevantStations sd doc with
  | error e => rfl
  | ok rel =>
      simp only [okBind]
      cases serializeTrain doc with
      | error e => rfl
      | ok ser => rfl

theorem newRow_exOk (now : Nat) (sd : Option (List (String × Val)))
    (tn : String) (doc : List (String × Val)) :
    exOk (newRow now sd tn doc) = docOk sd doc := by
  unfold newRow docOk
  cases relevantStations sd doc with
  | error e => rfl
  | ok rel =>
      simp only [okBind]
      cases serializeTrain doc with
      | error e => rfl
      | ok ser => rfl

theorem updFirst_exOk (now : Nat) (sd : Option (List (String × Val)))
    (tn : String) (doc : List (String × Val)) (tid : String)
    (rows : List TrainRow) :
    exOk (updFirst now sd tn doc tid rows) = docOk sd doc := by
  induction rows with
  | nil =>
      rw [← newRow_exOk now sd tn doc]
      simp only [updFirst]
      cases newRow now sd tn doc with
      | error e => rfl
      | ok nr => rfl
  | cons r rest ih =>
      by_cases hcond : r.train_number = tn ∧ r.train_id = tid
      · rw [← evolveOne_exOk now sd doc r]
        simp only [updFirst, if_pos hcond]
        cases evolveOne now sd doc r with
        | error e => rfl
        | ok r2 => rfl
      · rw [← ih]
        simp only [updFirst, if_neg hcond]
        cases updFirst now sd tn doc tid rest with
        | error e => rfl
        | ok rest2 => rfl

theorem upsertOne_exOk (now : Nat) (sd : Option (List (String × Val)))
    (tn : String) (t : Val) (rows : List TrainRow) :
    exOk (upsertOne now sd tn t rows) = snapOk sd (tn, t) := by
  cases t with
  | obj doc => exact updFirst_exOk now sd tn doc _ rows
  | null => rfl
  | bool b => rfl
  | num n => rfl
  | str s2 => rfl
  | date d => rfl
  | arr xs => rfl

/-- Whether the whole upsert loop succeeds is a function of the snapshot
list and the station cache alone — the starting rows and the clock are
irrelevant. -/
theorem foldFlat_exOk (now : Nat) (sd : Option (List (String × Val)))
    (flat : List (String × Val)) (rows : List TrainRow) :
    exOk (foldFlat now sd flat rows) = flat.all (fun q => snapOk sd q) := by
  induction flat generalizing rows with
  | nil => rfl
  | cons q rest ih =>
      obtain ⟨tn, t⟩ := q
      simp only [foldFlat, List.all_cons]
      cases hu : upsertOne now sd tn t rows with
      | error e =>
          have hx := upsertOne_exOk now sd tn t rows
          rw [hu] at hx
          simp only [errBind]
          rw [← hx]
          rfl
      | ok rowsMid =>
          have hx := upsertOne_exOk now sd tn t rows
          rw [hu] at hx
          simp only [okBind]
          rw [← hx, ih rowsMid]
          rfl

/-! #### The cleanup map, pointwise -/

/-- The per-row function of the cleanup pass. -/
def swf (now : Nat) (seen : List (String × String)) (r : TrainRow) :
    TrainRow :=
  if inActiveQuery r ∧ rowKey r ∉ seen then markCompleted now r else r

theorem sweep_eq_map (now : Nat) (seen : List (String × String))
    (rows : List TrainRow) : sweep now seen rows = rows.map (swf now seen) :=
  rfl

theorem swf_rowKey (now : Nat) (seen : List (String × String)) (r : TrainRow) :
    rowKey (swf now seen r) = rowKey r := by
  unfold swf
  split
  · exact markCompleted_rowKey now r
  · rfl

theorem swf_seen (now : Nat) (seen : List (String × String)) (r : TrainRow)
    (h : rowKey r ∈ seen) : swf now seen r = r := by
  unfold swf
  rw [if_neg (fun hc => hc.2 h)]

theorem swf_idem (now1 now2 : Nat) (seen : List (String × String))
    (r : TrainRow) : swf now2 seen (swf now1 seen r) = swf now1 seen r := by
  by_cases h1 : inActiveQuery r ∧ rowKey r ∉ seen
  · simp only [swf, if_pos h1]
    rw [if_neg (fun hc => markCompleted_inactive now1 r hc.1)]
  · simp only [swf, if_neg h1]

theorem sweep_findRow_isSome (now : Nat) (seen : List (String × String))
    (rows : List TrainRow) (k : String × String) :
    (findRowL (sweep now seen rows) k).isSome = (findRowL rows k).isSome := by
  rw [sweep_eq_map]
  induction rows with
  | nil => rfl
  | cons r rest ih =>
      simp only [List.map, findRowL, List.find?]
      rw [show decide (rowKey (swf now seen r) = k) = decide (rowKey r = k) by
        rw [swf_rowKey]]
      cases decide (rowKey r = k) with
      | true => rfl
      | false => exact ih

/-! #### The metadata stamp, up to its timestamp -/

/-- A metadata row with its timestamp content forgotten. -/
def stripMeta (m : MetaRow) : MetaRow := { m with value := "", updated_at := 0 }

theorem metaUpdate_idem (now1 now2 : Nat) (ms : List MetaRow) :
    metaUpdate now2 (metaUpdate now1 ms) = metaUpdate now2 ms := by
  induction ms with
  | nil => simp [metaUpdate]
  | cons m rest ih =>
      by_cases h : m.key = "last_train_update"
      · simp [metaUpdate, h]
      · simp only [metaUpdate, if_neg h]
        rw [ih]

theorem metaUpdate_strip_irrel (now1 now2 : Nat) (ms : List MetaRow) :
    (metaUpdate now1 ms).map stripMeta = (metaUpdate now2 ms).map stripMeta := by
  induction ms with
  | nil => simp [metaUpdate, stripMeta]
  | cons m rest ih =>
      by_cases h : m.key = "last_train_update"
      · simp [metaUpdate, h, stripMeta]
      · simp only [metaUpdate, if_neg h, List.map]
        rw [ih]

/-! #### Per-key closed form of a write sequence -/

/-- Applying a sequence of snapshot documents to one row, in order. -/
def applyDocs (now : Nat) (sd : Option (List (String × Val)))
    (ds : List (List (String × Val))) (r : TrainRow) : TrainRow :=
  ds.foldl (fun r doc => evolveT now sd doc r) r

theorem applyDocs_cons (now : Nat) (sd : Option (List (String × Val)))
    (d : List (String × Val)) (ds : List (List (String × Val)))
    (r : TrainRow) :
    applyDocs now sd (d :: ds) r = applyDocs now sd ds (evolveT now sd d r) :=
  rfl

theorem evolveT_rowKey (now : Nat) (sd : Option (List (String × Val)))
    (doc : List (String × Val)) (r : TrainRow) :
    rowKey (evolveT now sd doc r) = rowKey r := rfl

theorem newT_rowKey (now : Nat) (sd : Option (List (String × Val)))
    (tn : String) (doc : List (String × Val)) :
    rowKey (newT now sd tn doc) = (tn, pyStr (jgetD doc "id" (.str ""))) := rfl

theorem applyDocs_rowKey (now : Nat) (sd : Option (List (String × Val)))
    (ds : List (List (String × Val))) (r : TrainRow) :
    rowKey (applyDocs now sd ds r) = rowKey r := by
  induction ds generalizing r with
  | nil => rfl
  | cons d ds ih =>
      rw [applyDocs_cons, ih, evolveT_rowKey]

/-- The `train_state` column after a write sequence. -/
def stateAfter (s0 : Option String) :
    List (List (String × Val)) → Option String
  | [] => s0
  | d :: ds => stateAfter (pyGetState d) ds

/-- The `stations_snapshot` column after a write sequence: it is rewritten
exactly on the writes whose incoming state differs from the current one. -/
def snapAfter (sd : Option (List (String × Val))) (s0 : Option String)
    (p0 : Option Val) : List (List (String × Val)) → Option Val
  | [] => p0
  | d :: ds =>
      snapAfter sd (pyGetState d)
        (if pyGetState d ≠ s0 then relD sd d else p0) ds

theorem applyDocs_state (now : Nat) (sd : Option (List (String × Val)))
    (ds : List (List (String × Val))) (r : TrainRow) :
    (applyDocs now sd ds r).train_state = stateAfter r.train_state ds := by
  induction ds generalizing r with
  | nil => rfl
  | cons d ds ih =>
      rw [applyDocs_cons, ih]
      rfl

theorem applyDocs_snap (now : Nat) (sd : Option (List (String × Val)))
    (ds : List (List (String × Val))) (r : TrainRow) :
    (applyDocs now sd ds r).stations_snapshot =
      snapAfter sd r.train_state r.stations_snapshot ds := by
  induction ds generalizing r with
  | nil => rfl
  | cons d ds ih =>
      rw [applyDocs_cons, ih]
      rfl

theorem stateAfter_irrel (s t : Option String)
    (ds : List (List (String × Val))) (h : ds ≠ []) :
    stateAfter s ds = stateAfter t ds := by
  cases ds with
  | nil => exact absurd rfl h
  | cons d ds => rfl

theorem stateAfter_append_single (s : Option String)
    (ds : List (List (String × Val))) (d : List (String × Val)) :
    stateAfter s (ds ++ [d]) = pyGetState d := by
  induction ds generalizing s with
  | nil => rfl
  | cons e ds ih => exact ih (pyGetState e)

theorem snapAfter_append_single (sd : Option (List (String × Val)))
    (s : Option String) (p : Option Val)
    (ds : List (List (String × Val))) (d : List (String × Val)) :
    snapAfter sd s p (ds ++ [d]) =
      (if pyGetState d ≠ stateAfter s ds then relD sd d
       else snapAfter sd s p ds) := by
  induction ds generalizing s p with
  | nil => rfl
  | cons e ds ih =>
      simp only [List.cons_append, snapAfter, stateAfter]
      exact ih (pyGetState e) (if pyGetState e ≠ s then relD sd e else p)

/-- Re-running a write sequence from the state and snapshot it produced
reproduces the same snapshot. -/
theorem snapAfter_idem (sd : Option (List (String × Val)))
    (ds : List (List (String × Val))) (s0 : Option String) (p0 : Option Val) :
    snapAfter sd (stateAfter s0 ds) (snapAfter sd s0 p0 ds) ds =
      snapAfter sd s0 p0 ds := by
  induction ds using List.reverseRecOn with
  | nil => rfl
  | append_singleton ds d ih =>
      simp only [stateAfter_append_single, snapAfter_append_single]
      rcases eq_or_ne ds ([] : List (List (String × Val))) with hds | hds
      · subst hds
        simp only [stateAfter, snapAfter]
        rw [if_neg (fun h => h rfl)]
      · rw [stateAfter_irrel (pyGetState d) s0 ds hds]
        by_cases hc : pyGetState d ≠ stateAfter s0 ds
        · simp only [if_pos hc]
        · simp only [if_neg hc]
          rw [not_not.mp hc]
          exact ih

/-- After a nonempty write sequence, the plainly overwritten fields depend
only on the last document, not on the starting row or the clock. -/
theorem applyDocs_fields_last (now now2 : Nat)
    (sd : Option (List (String × Val))) (ds : List (List (String × Val)))
    (r r2 : TrainRow) (hne : ds ≠ []) :
    (applyDocs now sd ds r).route_name = (applyDocs now2 sd ds r2).route_name ∧
    (applyDocs now sd ds r).departure_date =
      (applyDocs now2 sd ds r2).departure_date ∧
    (applyDocs now sd ds r).data = (applyDocs now2 sd ds r2).data := by
  induction ds generalizing r r2 with
  | nil => exact absurd rfl hne
  | cons d ds ih =>
      cases hds : ds with
      | nil =>
          subst hds
          exact ⟨rfl, rfl, rfl⟩
      | cons e ds2 =>
          rw [← hds, applyDocs_cons, applyDocs_cons]
          exact ih (evolveT now sd d r) (evolveT now2 sd d r2)
            (by rw [hds]; intro h2; cases h2)

/-- Re-updating a fresh row with the document that created it changes
nothing. -/
theorem evolveT_newT (now : Nat) (sd : Option (List (String × Val)))
    (tn : String) (d : List (String × Val)) :
    evolveT now sd d (newT now sd tn d) = newT now sd tn d := by
  simp [evolveT, newT]

/-- Re-running a nonempty write sequence on the row it produced reproduces
that row up to `updated_at`. -/
theorem applyDocs_idem (now1 now2 : Nat) (sd : Option (List (String × Val)))
    (ds : List (List (String × Val))) (r0 : TrainRow) (hne : ds ≠ []) :
    stripRow (applyDocs now2 sd ds (applyDocs now1 sd ds r0)) =
      stripRow (applyDocs now1 sd ds r0) := by
  obtain ⟨h1, h2, h3⟩ :=
    applyDocs_fields_last now2 now1 sd ds (applyDocs now1 sd ds r0) r0 hne
  apply stripRow_fields
  · exact congrArg Prod.fst (applyDocs_rowKey now2 sd ds (applyDocs now1 sd ds r0))
  · exact congrArg Prod.snd (applyDocs_rowKey now2 sd ds (applyDocs now1 sd ds r0))
  · exact h1
  · exact h2
  · rw [applyDocs_state, applyDocs_state]
    exact stateAfter_irrel (stateAfter r0.train_state ds) r0.train_state ds hne
  · rw [applyDocs_snap, applyDocs_snap, applyDocs_state]
    exact snapAfter_idem sd ds r0.train_state r0.stations_snapshot
  · exact h3

theorem findRowL_append (l1 l2 : List TrainRow) (k : String × String) :
    findRowL (l1 ++ l2) k = (match findRowL l1 k with
      | some r => some r
      | none => findRowL l2 k) := by
  induction l1 with
  | nil => rfl
  | cons r rest ih =>
      simp only [List.cons_append, findRowL, List.find?]
      cases decide (rowKey r = k) with
      | true => rfl
      | false => exact ih

/-- The documents the flattened upsert list directs at one `(train_number,
train_id)` key, in order. -/
def docsFor (k : String × String) :
    List (String × Val) → List (List (String × Val))
  | [] => []
  | q :: rest =>
      match q.2 with
      | .obj doc =>
          if (q.1, pyStr (jgetD doc "id" (.str ""))) = k then
            doc :: docsFor k rest
          else docsFor k rest
      | _ => docsFor k rest

theorem docsFor_mem_flatKeys (k : String × String)
    (flat : List (String × Val)) (h : docsFor k flat ≠ []) :
    k ∈ flatKeys flat := by
  induction flat with
  | nil => exact absurd rfl h
  | cons q rest ih =>
      obtain ⟨tn, t⟩ := q
      cases t with
      | obj doc =>
          simp only [docsFor] at h
          simp only [flatKeys, List.filterMap_cons, upsertKey]
          by_cases hq : (tn, pyStr (jgetD doc "id" (.str ""))) = k
          · rw [hq]
            exact List.mem_cons_self _ _
          · rw [if_neg hq] at h
            exact List.mem_cons_of_mem _ (ih h)
      | null => exact ih h
      | bool b => exact ih h
      | num n => exact ih h
      | str s2 => exact ih h
      | date d => exact ih h
      | arr xs => exact ih h

/-! #### Index-level behavior of the whole upsert loop -/

/-- The first row of its key absorbs, in place, every document directed at
that key. -/
theorem foldFlat_get_first (now : Nat) (sd : Option (List (String × Val)))
    (flat : List (String × Val)) (rows rows2 : List TrainRow)
    (i : Nat) (r : TrainRow)
    (h : foldFlat now sd flat rows = .ok rows2)
    (hi : rows.get? i = some r)
    (hfirst : ∀ j rj, j < i → rows.get? j = some rj → rowKey rj ≠ rowKey r) :
    rows2.get? i = some (applyDocs now sd (docsFor (rowKey r) flat) r) := by
  induction flat generalizing rows r with
  | nil =>
      injection h with h2
      subst h2
      exact hi
  | cons q rest ih =>
      obtain ⟨tn, t⟩ := q
      simp only [foldFlat] at h
      cases hu : upsertOne now sd tn t rows with
      | error e => rw [hu] at h; cases h
      | ok rowsMid =>
          rw [hu] at h
          simp only [okBind] at h
          cases t with
          | obj doc =>
              simp only [upsertOne] at hu
              by_cases hkq : (tn, pyStr (jgetD doc "id" (.str ""))) = rowKey r
              · have hres := updFirst_get_first now sd tn doc
                  (pyStr (jgetD doc "id" (.str ""))) rows rowsMid i r hu hi
                  hkq.symm
                  (fun j rj hj hg h2 => hfirst j rj hj hg (h2.trans hkq))
                have hdocs : docsFor (rowKey r) ((tn, Val.obj doc) :: rest) =
                    doc :: docsFor (rowKey r) rest := by
                  simp only [docsFor]
                  rw [if_pos hkq]
                rw [hdocs, applyDocs_cons]
                have hmain := ih rowsMid (evolveT now sd doc r) h hres.1
                  (fun j rj hj hg => by
                    rw [evolveT_rowKey]
                    have hg2 : rows.get? j = some rj := by
                      rw [← hres.2 j (Nat.ne_of_lt hj)]
                      exact hg
                    exact hfirst j rj hj hg2)
                rw [evolveT_rowKey] at hmain
                exact hmain
              · have hdocs : docsFor (rowKey r) ((tn, Val.obj doc) :: rest) =
                    docsFor (rowKey r) rest := by
                  simp only [docsFor]
                  rw [if_neg hkq]
                rw [hdocs]
                have hmid : rowsMid.get? i = some r :=
                  updFirst_get_ne now sd tn doc
                    (pyStr (jgetD doc "id" (.str ""))) rows rowsMid hu i r hi
                    (fun h2 => hkq h2.symm)
                apply ih rowsMid r h hmid
                intro j rj hj hg
                have hilen : i < rows.length := by
                  rcases List.get?_eq_some.mp hi with ⟨hl, _⟩
                  exact hl
                have hjlen : j < rows.length := lt_trans hj hilen
                cases hrow : rows.get? j with
                | none =>
                    exact absurd (List.get?_eq_none.mp hrow)
                      (Nat.not_le.mpr hjlen)
                | some rjOld =>
                    obtain ⟨rj2, hg2, hk2⟩ := updFirst_keys now sd tn doc
                      (pyStr (jgetD doc "id" (.str ""))) rows rowsMid hu j
                      rjOld hrow
                    rw [hg] at hg2
                    injection hg2 with hg3
                    rw [← hg3] at hk2
                    rw [hk2]
                    exact hfirst j rjOld hj hrow
          | null => simp only [upsertOne] at hu; cases hu
          | bool b => simp only [upsertOne] at hu; cases hu
          | num n => simp only [upsertOne] at hu; cases hu
          | str s2 => simp only [upsertOne] at hu; cases hu
          | date d => simp only [upsertOne] at hu; cases hu
          | arr xs => simp only [upsertOne] at hu; cases hu

/-- A row shadowed by an earlier row of the same key is never touched by
the upsert loop. -/
theorem foldFlat_get_stable (now : Nat) (sd : Option (List (String × Val)))
    (flat : List (String × Val)) (rows rows2 : List TrainRow)
    (i : Nat) (r : TrainRow)
    (h : foldFlat now sd flat rows = .ok rows2)
    (hi : rows.get? i = some r)
    (hsh : ∃ j rj, j < i ∧ rows.get? j = some rj ∧ rowKey rj = rowKey r) :
    rows2.get? i = some r := by
  induction flat generalizing rows with
  | nil =>
      injection h with h2
      subst h2
      exact hi
  | cons q rest ih =>
      obtain ⟨tn, t⟩ := q
      simp only [foldFlat] at h
      cases hu : upsertOne now sd tn t rows with
      | error e => rw [hu] at h; cases h
      | ok rowsMid =>
          rw [hu] at h
          simp only [okBind] at h
          cases t with
          | obj doc =>
              simp only [upsertOne] at hu
              obtain ⟨j, rj, hj, hgj, hkj⟩ := hsh
              obtain ⟨rj2, hg2, hk2⟩ := updFirst_keys now sd tn doc
                (pyStr (jgetD doc "id" (.str ""))) rows rowsMid hu j rj hgj
              by_cases hkq : rowKey r = (tn, pyStr (jgetD doc "id" (.str "")))
              · have hmid : rowsMid.get? i = some r :=
                  updFirst_get_later now sd tn doc
                    (pyStr (jgetD doc "id" (.str ""))) rows rowsMid j i rj r hu
                    hgj (hkj.trans hkq) hj hi
                exact ih rowsMid h hmid ⟨j, rj2, hj, hg2, hk2.trans hkj⟩
              · have hmid : rowsMid.get? i = some r :=
                  updFirst_get_ne now sd tn doc
                    (pyStr (jgetD doc "id" (.str ""))) rows rowsMid hu i r hi
                    hkq
                exact ih rowsMid h hmid ⟨j, rj2, hj, hg2, hk2.trans hkj⟩
          | null => simp only [upsertOne] at hu; cases hu
          | bool b => simp only [upsertOne] at hu; cases hu
          | num n => simp only [upsertOne] at hu; cases hu
          | str s2 => simp only [upsertOne] at hu; cases hu
          | date d => simp only [upsertOne] at hu; cases hu
          | arr xs => simp only [upsertOne] at hu; cases hu

/-- The row the upsert loop leaves under a key: the documents directed at
the key, folded over the pre-existing row, or over a fresh row created by
the first of them. -/
theorem foldFlat_lastWriter (now : Nat) (sd : Option (List (String × Val)))
    (flat : List (String × Val)) (rows rows2 : List TrainRow)
    (k : String × String)
    (h : foldFlat now sd flat rows = .ok rows2) :
    findRowL rows2 k = (match findRowL rows k, docsFor k flat with
      | some r0, ds => some (applyDocs now sd ds r0)
      | none, [] => none
      | none, d :: ds => some (applyDocs now sd ds (newT now sd k.1 d))) := by
  induction flat generalizing rows with
  | nil =>
      injection h with h2
      subst h2
      cases findRowL rows k with
      | some r0 => rfl
      | none => rfl
  | cons q rest ih =>
      obtain ⟨tn, t⟩ := q
      simp only [foldFlat] at h
      cases hu : upsertOne now sd tn t rows with
      | error e => rw [hu] at h; cases h
      | ok rowsMid =>
          rw [hu] at h
          simp only [okBind] at h
          cases t with
          | obj doc =>
              simp only [upsertOne] at hu
              by_cases hkq : (tn, pyStr (jgetD doc "id" (.str ""))) = k
              · have hdocs : docsFor k ((tn, Val.obj doc) :: rest) =
                    doc :: docsFor k rest := by
                  simp only [docsFor]
                  rw [if_pos hkq]
                rw [hdocs]
                have hk1 : k.1 = tn := by rw [← hkq]
                cases hf : findRowL rows k with
                | some r0 =>
                    have hmid := updFirst_findRow_update now sd tn doc
                      (pyStr (jgetD doc "id" (.str ""))) rows rowsMid r0 hu
                      (by rw [hkq]; exact hf)
                    rw [hkq] at hmid
                    rw [ih rowsMid h, hmid]
                    rfl
                | none =>
                    have habs : ∀ j rj, rows.get? j = some rj →
                        rowKey rj ≠ (tn, pyStr (jgetD doc "id" (.str ""))) := by
                      intro j rj hg
                      rw [hkq]
                      exact (findRowL_none_iff rows k).mp hf j rj hg
                    have happ := updFirst_append now sd tn doc
                      (pyStr (jgetD doc "id" (.str ""))) rows rowsMid hu habs
                    have hmid : findRowL rowsMid k =
                        some (newT now sd tn doc) := by
                      rw [happ, findRowL_append, hf]
                      simp only [findRowL, List.find?]
                      rw [show decide (rowKey (newT now sd tn doc) = k) = true
                        from decide_eq_true (by rw [newT_rowKey]; exact hkq)]
                    rw [ih rowsMid h, hmid]
                    show some (applyDocs now sd (docsFor k rest)
                        (newT now sd tn doc)) =
                      some (applyDocs now sd (docsFor k rest)
                        (newT now sd k.1 doc))
                    rw [hk1]
              · have hdocs : docsFor k ((tn, Val.obj doc) :: rest) =
                    docsFor k rest := by
                  simp only [docsFor]
                  rw [if_neg hkq]
                rw [hdocs]
                have hmid := updFirst_findRow_ne now sd tn doc
                  (pyStr (jgetD doc "id" (.str ""))) rows rowsMid hu rfl k
                  (fun h2 => hkq h2.symm)
                rw [ih rowsMid h, hmid]
          | null => simp only [upsertOne] at hu; cases hu
          | bool b => simp only [upsertOne] at hu; cases hu
          | num n => simp only [upsertOne] at hu; cases hu
          | str s2 => simp only [upsertOne] at hu; cases hu
          | date d => simp only [upsertOne] at hu; cases hu
          | arr xs => simp only [upsertOne] at hu; cases hu

theorem updFirst_present_preserved (now : Nat)
    (sd : Option (List (String × Val))) (tn : String)
    (doc : List (String × Val)) (tid : String) (rows rows2 : List TrainRow)
    (k : String × String)
    (h : updFirst now sd tn doc tid rows = .ok rows2)
    (htid : tid = pyStr (jgetD doc "id" (.str "")))
    (hp : (findRowL rows k).isSome = true) :
    (findRowL rows2 k).isSome = true := by
  by_cases hk : k = (tn, tid)
  · subst hk
    rcases Option.isSome_iff_exists.mp hp with ⟨r0, hr0⟩
    rw [updFirst_findRow_update now sd tn doc tid rows rows2 r0 h hr0]
    rfl
  · rw [updFirst_findRow_ne now sd tn doc tid rows rows2 h htid k hk]
    exact hp

theorem foldFlat_present_preserved (now : Nat)
    (sd : Option (List (String × Val))) (flat : List (String × Val))
    (rows rows2 : List TrainRow) (k : String × String)
    (h : foldFlat now sd flat rows = .ok rows2)
    (hp : (findRowL rows k).isSome = true) :
    (findRowL rows2 k).isSome = true := by
  induction flat generalizing rows with
  | nil =>
      injection h with h2
      subst h2
      exact hp
  | cons q rest ih =>
      obtain ⟨tn, t⟩ := q
      simp only [foldFlat] at h
      cases hu : upsertOne now sd tn t rows with
      | error e => rw [hu] at h; cases h
      | ok rowsMid =>
          rw [hu] at h
          simp only [okBind] at h
          cases t with
          | obj doc =>
              simp only [upsertOne] at hu
              exact ih rowsMid h (updFirst_present_preserved now sd tn doc
                (pyStr (jgetD doc "id" (.str ""))) rows rowsMid k hu rfl hp)
          | null => simp only [upsertOne] at hu; cases hu
          | bool b => simp only [upsertOne] at hu; cases hu
          | num n => simp only [upsertOne] at hu; cases hu
          | str s2 => simp only [upsertOne] at hu; cases hu
          | date d => simp only [upsertOne] at hu; cases hu
          | arr xs => simp only [upsertOne] at hu; cases hu

/-- Every key the loop processes is present in its output. -/
theorem foldFlat_creates_present (now : Nat)
    (sd : Option (List (String × Val))) (flat : List (String × Val))
    (rows rows2 : List TrainRow) (q : String × Val) (k : String × String)
    (h : foldFlat now sd flat rows = .ok rows2)
    (hq : q ∈ flat) (hk : upsertKey q.1 q.2 = some k) :
    (findRowL rows2 k).isSome = true := by
  induction flat generalizing rows with
  | nil => cases hq
  | cons q0 rest ih =>
      obtain ⟨tn, t⟩ := q0
      simp only [foldFlat] at h
      cases hu : upsertOne now sd tn t rows with
      | error e => rw [hu] at h; cases h
      | ok rowsMid =>
          rw [hu] at h
          simp only [okBind] at h
          rcases List.mem_cons.mp hq with hq0 | hqr
          · subst hq0
            cases t with
            | obj doc =>
                simp only [upsertOne] at hu
                simp only [upsertKey] at hk
                injection hk with hk2
                subst hk2
                rcases updFirst_findRow_isSome now sd tn doc
                  (pyStr (jgetD doc "id" (.str ""))) rows rowsMid hu rfl with
                  ⟨r2, hr2⟩
                exact foldFlat_present_preserved now sd rest rowsMid rows2 _ h
                  (by rw [hr2]; rfl)
            | null => simp only [upsertOne] at hu; cases hu
            | bool b => simp only [upsertOne] at hu; cases hu
            | num n => simp only [upsertOne] at hu; cases hu
            | str s2 => simp only [upsertOne] at hu; cases hu
            | date d => simp only [upsertOne] at hu; cases hu
            | arr xs => simp only [upsertOne] at hu; cases hu
          · exact ih rowsMid h hqr

/-- When every processed key is already present, the loop appends nothing. -/
theorem foldFlat_length_present (now : Nat)
    (sd : Option (List (String × Val))) (flat : List (String × Val))
    (rows rows2 : List TrainRow)
    (h : foldFlat now sd flat rows = .ok rows2)
    (hpres : ∀ q ∈ flat, ∀ k, upsertKey q.1 q.2 = some k →
      (findRowL rows k).isSome = true) :
    rows2.length = rows.length := by
  induction flat generalizing rows with
  | nil =>
      injection h with h2
      subst h2
      rfl
  | cons q0 rest ih =>
      obtain ⟨tn, t⟩ := q0
      simp only [foldFlat] at h
      cases hu : upsertOne now sd tn t rows with
      | error e => rw [hu] at h; cases h
      | ok rowsMid =>
          rw [hu] at h
          simp only [okBind] at h
          cases t with
          | obj doc =>
              simp only [upsertOne] at hu
              have hp0 := hpres (tn, Val.obj doc) (List.mem_cons_self _ _)
                (tn, pyStr (jgetD doc "id" (.str ""))) rfl
              rcases Option.isSome_iff_exists.mp hp0 with ⟨r0, hr0⟩
              have hlen := updFirst_length_present now sd tn doc
                (pyStr (jgetD doc "id" (.str ""))) rows rowsMid r0 hu hr0
              rw [← hlen]
              apply ih rowsMid h
              intro q hqm k hk
              exact updFirst_present_preserved now sd tn doc
                (pyStr (jgetD doc "id" (.str ""))) rows rowsMid k hu rfl
                (hpres q (List.mem_cons_of_mem _ hqm) k hk)
          | null => simp only [upsertOne] at hu; cases hu
          | bool b => simp only [upsertOne] at hu; cases hu
          | num n => simp only [upsertOne] at hu; cases hu
          | str s2 => simp only [upsertOne] at hu; cases hu
          | date d => simp only [upsertOne] at hu; cases hu
          | arr xs => simp only [upsertOne] at hu; cases hu

theorem update_trains_in_db_ok (now : Nat) (td : List (String × List Val))
    (sd : Option (List (String × Val))) (db : DBState) (up : List TrainRow)
    (htd : td.isEmpty = false)
    (h : foldFlat now sd (flatTd td) db.trains = .ok up) :
    update_trains_in_db now td sd db =
      { db with trains := sweep now (seenKeys td) up,
                metadata := metaUpdate now db.metadata } := by
  have hne : ¬ (td.isEmpty = true) := by simp [htd]
  unfold update_trains_in_db
  rw [if_neg hne]
  unfold runUpdateTrains
  rw [upsertAll_eq_foldFlat, h]
  rfl

theorem update_trains_in_db_err (now : Nat) (td : List (String × List Val))
    (sd : Option (List (String × Val))) (db : DBState) (e : Unit)
    (htd : td.isEmpty = false)
    (h : foldFlat now sd (flatTd td) db.trains = .error e) :
    update_trains_in_db now td sd db = db := by
  have hne : ¬ (td.isEmpty = true) := by simp [htd]
  unfold update_trains_in_db
  rw [if_neg hne]
  unfold runUpdateTrains
  rw [upsertAll_eq_foldFlat, h]
  rfl

/-- **C8**: running the reconciliation transaction twice on the same fetched
train data and station cache leaves the database as one run does: the train
rows agree up to `updated_at`, the station table is untouched, and the
metadata stamp agrees up to its timestamp content. A failing run leaves the
store untouched in both passes. -/
theorem reconcile_idempotent (now1 now2 : Nat) (td : List (String × List Val))
    (sd : Option (List (String × Val))) (db0 : DBState) :
    (update_trains_in_db now2 td sd
        (update_trains_in_db now1 td sd db0)).trains.map stripRow =
      (update_trains_in_db now1 td sd db0).trains.map stripRow ∧
    (update_trains_in_db now2 td sd
        (update_trains_in_db now1 td sd db0)).stations =
      (update_trains_in_db now1 td sd db0).stations ∧
    (update_trains_in_db now2 td sd
        (update_trains_in_db now1 td sd db0)).metadata.map stripMeta =
      (update_trains_in_db now1 td sd db0).metadata.map stripMeta := by
  by_cases htd : td.isEmpty
  · simp [update_trains_in_db, htd]
  · have hfalse : td.isEmpty = false := by
      cases h2 : td.isEmpty with
      | true => exact absurd h2 htd
      | false => rfl
    cases hf1 : foldFlat now1 sd (flatTd td) db0.trains with
    | error e =>
        have h1 := update_trains_in_db_err now1 td sd db0 e hfalse hf1
        have hox : exOk (foldFlat now2 sd (flatTd td) db0.trains) = false := by
          rw [foldFlat_exOk]
          have h2 := foldFlat_exOk now1 sd (flatTd td) db0.trains
          rw [hf1] at h2
          exact h2.symm
        cases hf2 : foldFlat now2 sd (flatTd td) db0.trains with
        | ok up2 => rw [hf2] at hox; cases hox
        | error e2 =>
            have h2 := update_trains_in_db_err now2 td sd db0 e2 hfalse hf2
            rw [h1, h2]
            exact ⟨rfl, rfl, rfl⟩
    | ok up1 =>
        have h1 := update_trains_in_db_ok now1 td sd db0 up1 hfalse hf1
        have hox : exOk (foldFlat now2 sd (flatTd td)
            (sweep now1 (seenKeys td) up1)) = true := by
          rw [foldFlat_exOk]
          have h2 := foldFlat_exOk now1 sd (flatTd td) db0.trains
          rw [hf1] at h2
          exact h2.symm
        cases hf2 : foldFlat now2 sd (flatTd td)
            (sweep now1 (seenKeys td) up1) with
        | error e2 => rw [hf2] at hox; cases hox
        | ok up2 =>
            have h2 := update_trains_in_db_ok now2 td sd
              { db0 with trains := sweep now1 (seenKeys td) up1,
                         metadata := metaUpdate now1 db0.metadata } up2 hfalse
              hf2
            rw [h1, h2]
            refine ⟨?_, rfl, ?_⟩
            · show (sweep now2 (seenKeys td) up2).map stripRow =
                (sweep now1 (seenKeys td) up1).map stripRow
              have hpres : ∀ q ∈ flatTd td, ∀ k, upsertKey q.1 q.2 = some k →
                  (findRowL (sweep now1 (seenKeys td) up1) k).isSome = true := by
                intro q hq k hk
                rw [sweep_findRow_isSome]
                exact foldFlat_creates_present now1 sd (flatTd td) db0.trains
                  up1 q k hf1 hq hk
              have hlen2 : up2.length = up1.length := by
                rw [foldFlat_length_present now2 sd (flatTd td)
                  (sweep now1 (seenKeys td) up1) up2 hf2 hpres,
                  sweep_eq_map, List.length_map]
              apply List.ext_get?
              intro i
              rw [List.get?_map, List.get?_map, sweep_eq_map, sweep_eq_map,
                List.get?_map, List.get?_map]
              cases hg1 : up1.get? i with
              | none =>
                  have hge : up1.length ≤ i := List.get?_eq_none.mp hg1
                  rw [List.get?_eq_none.mpr (by rw [hlen2]; exact hge)]
                  rfl
              | some u1i =>
                  have hri : (sweep now1 (seenKeys td) up1).get? i =
                      some (swf now1 (seenKeys td) u1i) := by
                    rw [sweep_eq_map, List.get?_map, hg1]
                    rfl
                  by_cases hfirst : ∀ j rj, j < i →
                      (sweep now1 (seenKeys td) up1).get? j = some rj →
                      rowKey rj ≠ rowKey (swf now1 (seenKeys td) u1i)
                  · have hup2 := foldFlat_get_first now2 sd (flatTd td)
                      (sweep now1 (seenKeys td) up1) up2 i
                      (swf now1 (seenKeys td) u1i) hf2 hri hfirst
                    rw [swf_rowKey] at hup2
                    cases hds : docsFor (rowKey u1i) (flatTd td) with
                    | nil =>
                        rw [hds] at hup2
                        rw [hup2]
                        show some (stripRow (swf now2 (seenKeys td)
                            (applyDocs now2 sd [] (swf now1 (seenKeys td) u1i)))) =
                          some (stripRow (swf now1 (seenKeys td) u1i))
                        rw [show applyDocs now2 sd []
                            (swf now1 (seenKeys td) u1i) =
                          swf now1 (seenKeys td) u1i from rfl, swf_idem]
                    | cons d ds2 =>
                        rw [hds] at hup2
                        have hne2 : docsFor (rowKey u1i) (flatTd td) ≠ [] := by
                          rw [hds]
                          exact List.cons_ne_nil d ds2
                        have hseen : rowKey u1i ∈ seenKeys td := by
                          rw [seenKeys_eq_flatKeys]
                          exact docsFor_mem_flatKeys _ _ hne2
                        have hswf1 : swf now1 (seenKeys td) u1i = u1i :=
                          swf_seen now1 _ u1i hseen
                        have hfirstU : ∀ j rj, j < i → up1.get? j = some rj →
                            rowKey rj ≠ rowKey u1i := by
                          intro j rj hj hgj h3
                          exact hfirst j (swf now1 (seenKeys td) rj) hj
                            (by rw [sweep_eq_map, List.get?_map, hgj]; rfl)
                            (by rw [swf_rowKey, swf_rowKey, h3])
                        have hfind1 : findRowL up1 (rowKey u1i) = some u1i :=
                          findRowL_of_first up1 (rowKey u1i) i u1i hg1 rfl
                            hfirstU
                        have hlw := foldFlat_lastWriter now1 sd (flatTd td)
                          db0.trains up1 (rowKey u1i) hf1
                        rw [hfind1, hds] at hlw
                        rw [hup2]
                        show some (stripRow (swf now2 (seenKeys td)
                            (applyDocs now2 sd (d :: ds2)
                              (swf now1 (seenKeys td) u1i)))) =
                          some (stripRow (swf now1 (seenKeys td) u1i))
                        rw [hswf1]
                        rw [swf_seen now2 (seenKeys td)
                          (applyDocs now2 sd (d :: ds2) u1i)
                          (by rw [applyDocs_rowKey]; exact hseen)]
                        refine congrArg some ?_
                        cases h0 : findRowL db0.trains (rowKey u1i) with
                        | some r0 =>
                            rw [h0] at hlw
                            injection hlw with hlw2
                            rw [hlw2]
                            exact applyDocs_idem now1 now2 sd (d :: ds2) r0
                              (List.cons_ne_nil d ds2)
                        | none =>
                            rw [h0] at hlw
                            injection hlw with hlw2
                            have hnewT : applyDocs now1 sd ds2
                                (newT now1 sd (rowKey u1i).1 d) =
                              applyDocs now1 sd (d :: ds2)
                                (newT now1 sd (rowKey u1i).1 d) := by
                              rw [applyDocs_cons, evolveT_newT]
                            rw [hlw2, hnewT]
                            exact applyDocs_idem now1 now2 sd (d :: ds2)
                              (newT now1 sd (rowKey u1i).1 d)
                              (List.cons_ne_nil d ds2)
                  · push_neg at hfirst
                    obtain ⟨j, rj, hj, hgj, hkj⟩ := hfirst
                    have hup2 := foldFlat_get_stable now2 sd (flatTd td)
                      (sweep now1 (seenKeys td) up1) up2 i
                      (swf now1 (seenKeys td) u1i) hf2 hri ⟨j, rj, hj, hgj, hkj⟩
                    rw [hup2]
                    show some (stripRow (swf now2 (seenKeys td)
                        (swf now1 (seenKeys td) u1i))) =
                      some (stripRow (swf now1 (seenKeys td) u1i))
                    rw [swf_idem]
            · show (metaUpdate now2 (metaUpdate now1 db0.metadata)).map
                  stripMeta =
                (metaUpdate now1 db0.metadata).map stripMeta
              rw [metaUpdate_idem]
              exact (metaUpdate_strip_irrel now1 now2 db0.metadata).symm

end Amtrak
